import Mathlib

/-!
Verification development for the Unravel HPSS audio core
(Source/DSP/STFTProcessor, MagPhaseFrame, MaskEstimator, HPSSProcessor).

The C++ float arithmetic is embedded shallowly over the real numbers:
float values become elements of the reals, float comparisons become real
comparisons, and the numeric constants of the source (epsilon 1e-8,
denormal threshold 1e-30, smoothing coefficients, COLA factors) are kept
verbatim.  Fixed-size float arrays and spans become total functions from
the natural numbers to the reals (only indices below the relevant bin or
sample count are ever read), std::vector buffers of samples become lists,
and the mutable objects of the source become state records with explicit
state-passing operations, one Lean definition per C++ method.

External collaborators (the JUCE library) are modelled from their
documented semantics: juce::dsp::FFT as the standard real DFT whose
inverse carries the 1/N normalisation, juce::dsp::WindowingFunction with
the fftSize+1 periodic-Hann trick as the periodic Hann window, and
juce::SmoothedValue<float, Linear> by its published field semantics
(reset sets the current value to the stored target).

MagPhaseFrame's throwing helpers (ensurePrepared, validateSpanSize,
prepare) are embedded with Except, an error value standing for a thrown
C++ exception.
-/

set_option maxRecDepth 8000

noncomputable section

/-- Shared numerical-stability epsilon, 1e-8 in every component
(HPSSProcessor::kEpsilon, STFTProcessor::kEpsilon, MagPhaseFrame::kEpsilon,
MaskEstimator::eps). -/
def kEpsilon : ℝ := 1e-8

/-- Denormal protection threshold 1e-30 (MagPhaseFrame::kDenormalThreshold,
HPSSProcessor::kDenormalThreshold). -/
def kDenormalThreshold : ℝ := 1e-30

/-- flushDenormals applied to a single value: values of magnitude below the
denormal threshold are forced to exactly zero
(MagPhaseFrame::flushDenormals, HPSSProcessor::flushDenormals). -/
def flushDenormal (x : ℝ) : ℝ := if |x| < kDenormalThreshold then 0 else x

-- ===========================================================================
-- MagPhaseFrame (Source/DSP/MagPhaseFrame.cpp)
-- ===========================================================================

namespace MagPhaseFrame

/-- std::hypot(re, im) of MagPhaseFrame::complexToMagPhase. -/
def hypotRI (re im : ℝ) : ℝ := Real.sqrt (re * re + im * im)

/-- The magnitude std::hypot(c.re, c.im) of one complex bin. -/
def magnitudeOf (c : ℂ) : ℝ := hypotRI c.re c.im

/-- MagPhaseFrame::complexToMagPhase: magnitude via hypot, phase via
atan2 (the principal argument), except that a magnitude not exceeding
kEpsilon forces both outputs to exactly zero. -/
def complexToMagPhase (c : ℂ) : ℝ × ℝ :=
  if kEpsilon < magnitudeOf c then (magnitudeOf c, Complex.arg c) else (0, 0)

/-- MagPhaseFrame::magPhaseToComplex: sub-epsilon magnitudes short-circuit
to exactly (0,0); otherwise polar-to-rectangular conversion. -/
def magPhaseToComplex (m phase : ℝ) : ℂ :=
  if m < kEpsilon then 0 else ⟨m * Real.cos phase, m * Real.sin phase⟩

/-- One bin of MagPhaseFrame::fromComplex: the polar conversion followed by
the denormal flush that fromComplex applies to both arrays. -/
def fromComplexBin (c : ℂ) : ℝ × ℝ :=
  (flushDenormal (complexToMagPhase c).1, flushDenormal (complexToMagPhase c).2)

/-- toComplex after fromComplex on one bin (the round trip of §8 of the spec). -/
def roundTripBin (c : ℂ) : ℂ :=
  magPhaseToComplex (fromComplexBin c).1 (fromComplexBin c).2

/-- The per-frame storage of MagPhaseFrame: two parallel arrays. -/
structure MPState where
  magnitudeData : List ℝ
  phaseData : List ℝ

/-- MagPhaseFrame::prepare: throws std::invalid_argument for a
non-positive bin count, otherwise zero-initialises both arrays. -/
def prepareE (numBins : ℤ) : Except String MPState :=
  if numBins ≤ 0 then .error "numBins must be positive"
  else .ok ⟨List.replicate numBins.toNat 0, List.replicate numBins.toNat 0⟩

/-- MagPhaseFrame::fromComplex with its throwing guards: ensurePrepared
(throws std::runtime_error when the frame has no storage) and
validateSpanSize (throws std::invalid_argument on a size mismatch). -/
def fromComplexE (st : MPState) (frame : List ℂ) : Except String MPState :=
  if st.magnitudeData.length = 0 then .error "Frame not prepared"
  else if frame.length ≠ st.magnitudeData.length then .error "Span size mismatch"
  else .ok ⟨frame.map (fun c => (fromComplexBin c).1),
            frame.map (fun c => (fromComplexBin c).2)⟩

/-- MagPhaseFrame::toComplex with the same two throwing guards; the output
span is represented by its length. -/
def toComplexE (st : MPState) (spanLen : ℕ) : Except String (List ℂ) :=
  if st.magnitudeData.length = 0 then .error "Frame not prepared"
  else if spanLen ≠ st.magnitudeData.length then .error "Span size mismatch"
  else .ok ((List.range st.magnitudeData.length).map
      (fun i => magPhaseToComplex (st.magnitudeData.getD i 0) (st.phaseData.getD i 0)))

/-- MagPhaseFrame::getMagnitudes with its ensurePrepared guard. -/
def getMagnitudesE (st : MPState) : Except String (List ℝ) :=
  if st.magnitudeData.length = 0 then .error "Frame not prepared"
  else .ok st.magnitudeData

end MagPhaseFrame

-- ===========================================================================
-- STFTProcessor (Source/DSP/STFTProcessor.cpp)
-- ===========================================================================

namespace STFT

/-- Periodic Hann window: juce::dsp::WindowingFunction built with size
fftSize+1 (the periodic-window trick of the STFTProcessor constructor),
of which only the first fftSize samples are used. -/
def hannWindow (fftSize : ℕ) (i : ℕ) : ℝ :=
  0.5 - 0.5 * Real.cos (2 * Real.pi * (i : ℝ) / (fftSize : ℝ))

/-- The overlap factor fftSize/hopSize computed in float
(STFTProcessor::calculateWindowScaling). -/
def overlapFactor (fftSize hopSize : ℕ) : ℝ := (fftSize : ℝ) / (hopSize : ℝ)

/-- STFTProcessor::calculateWindowScaling: the COLA correction factor.
2/3 within 0.001 of overlap factor 4, 1.0 within 0.001 of 2, otherwise
2/overlapFactor. -/
def colaFactor (fftSize hopSize : ℕ) : ℝ :=
  if |overlapFactor fftSize hopSize - 4| < 0.001 then 2 / 3
  else if |overlapFactor fftSize hopSize - 2| < 0.001 then 1
  else 2 / overlapFactor fftSize hopSize

/-- The synthesis scale stored by calculateWindowScaling:
fftCompensation (1.0) times the COLA factor.  The analysis scale is 1
and is never applied. -/
def calculateWindowScaling (fftSize hopSize : ℕ) : ℝ :=
  1 * colaFactor fftSize hopSize

/-- STFTProcessor::applySynthesisWindow on one sample: multiply by the
Hann windowing table, then by the precomputed synthesis scale. -/
def applySynthesisWindowSample (fftSize : ℕ) (scale : ℝ) (x : ℝ) (j : ℕ) : ℝ :=
  x * hannWindow fftSize j * scale

/-- Forward real DFT (model of juce::dsp::FFT::performRealOnlyForwardTransform,
which produces the unnormalised spectrum). -/
def dftForward (N : ℕ) (x : ℕ → ℝ) (k : ℕ) : ℂ :=
  ∑ j ∈ Finset.range N, (x j : ℂ) * Complex.exp (Complex.I * (-2) * Real.pi * k * j / N)

/-- Hermitian extension of the one-sided spectrum (bins 0 .. N/2) to the
full spectrum, as performRealOnlyInverseTransform consumes it. -/
def extendHermitian (N : ℕ) (bins : ℕ → ℂ) (k : ℕ) : ℂ :=
  if k ≤ N / 2 then bins k else (starRingEnd ℂ) (bins (N - k))

/-- Inverse real DFT with the 1/N normalisation that juce::dsp::FFT applies
on the inverse transform. -/
def dftInverse (N : ℕ) (X : ℕ → ℂ) (j : ℕ) : ℝ :=
  (1 / (N : ℝ)) *
    (∑ k ∈ Finset.range N, X k * Complex.exp (Complex.I * 2 * Real.pi * k * j / N)).re

/-- STFTProcessor::RingBuffer.  The C++ object stores every sample twice
(mirrored double-length storage) purely so that reads need no wraparound;
the model stores the logical content once and reads with explicit modular
indexing, which is what the mirror makes the C++ reads equivalent to. -/
structure RingBuffer where
  size : ℕ
  data : ℕ → ℝ
  writePos : ℕ
  readPos : ℕ

namespace RingBuffer

/-- RingBuffer::resize: zeroed storage, both cursors at zero. -/
def resize (n : ℕ) : RingBuffer := ⟨n, fun _ => 0, 0, 0⟩

/-- RingBuffer::write: one sample per loop step at the write cursor,
advancing it modulo the size. -/
def writeList (rb : RingBuffer) : List ℝ → RingBuffer
  | [] => rb
  | x :: xs =>
      writeList
        { rb with
          data := Function.update rb.data (rb.writePos % rb.size) x,
          writePos := (rb.writePos + 1) % rb.size } xs

/-- RingBuffer::read of the sample at offset i from the read cursor. -/
def readAt (rb : RingBuffer) (i : ℕ) : ℝ := rb.data ((rb.readPos + i) % rb.size)

/-- RingBuffer::advance. -/
def advance (rb : RingBuffer) (n : ℕ) : RingBuffer :=
  { rb with readPos := (rb.readPos + n) % rb.size }

/-- RingBuffer::advanceWritePosition. -/
def advanceWritePosition (rb : RingBuffer) (n : ℕ) : RingBuffer :=
  { rb with writePos := (rb.writePos + n) % rb.size }

/-- The element-at-a-time loop of RingBuffer::overlapAdd: data[(w+i)%size]
accumulates input[i]; the cursor itself is not moved. -/
def overlapAddAux (data : ℕ → ℝ) (size pos : ℕ) : List ℝ → (ℕ → ℝ)
  | [] => data
  | x :: xs =>
      overlapAddAux
        (Function.update data (pos % size) (data (pos % size) + x)) size (pos + 1) xs

/-- RingBuffer::overlapAdd. -/
def overlapAdd (rb : RingBuffer) (xs : List ℝ) : RingBuffer :=
  { rb with data := overlapAddAux rb.data rb.size rb.writePos xs }

/-- The loop of RingBuffer::readAndClear: read data[(r+i)%size] in order,
zeroing each slot after reading it.  Returns the samples read and the
cleared storage. -/
def readAndClearAux (data : ℕ → ℝ) (size r : ℕ) : ℕ → List ℝ × (ℕ → ℝ)
  | 0 => ([], data)
  | Nat.succ n =>
      let p := r % size
      let rest := readAndClearAux (Function.update data p 0) size (r + 1) n
      (data p :: rest.1, rest.2)

/-- RingBuffer::getReadableDistance. -/
def getReadableDistance (rb : RingBuffer) : ℕ :=
  if rb.readPos ≤ rb.writePos then rb.writePos - rb.readPos
  else rb.size - rb.readPos + rb.writePos

/-- RingBuffer::clear. -/
def clear (rb : RingBuffer) : RingBuffer :=
  { rb with data := fun _ => 0, writePos := 0, readPos := 0 }

end RingBuffer

/-- The state of STFTProcessor after prepare. -/
structure STFTState where
  fftSize : ℕ
  hopSize : ℕ
  inputBuffer : RingBuffer
  outputBuffer : RingBuffer
  currentFrame : ℕ → ℂ
  samplesInInputBuffer : ℕ
  samplesInOutputBuffer : ℕ
  frameReady : Bool
  isFirstFrame : Bool
  synthesisScale : ℝ

/-- Config::getNumBins. -/
def STFTState.numBins (st : STFTState) : ℕ := st.fftSize / 2 + 1

/-- STFTProcessor::getLatencyInSamples = fftSize - hopSize. -/
def STFTState.getLatencyInSamples (st : STFTState) : ℕ := st.fftSize - st.hopSize

/-- STFTProcessor constructor followed by prepare: ring buffers of size
fftSize*4, zeroed frame, empty counters, first-frame flag set, and the
synthesis scale precomputed by calculateWindowScaling. -/
def stftPrepare (fftSize hopSize : ℕ) : STFTState :=
  { fftSize := fftSize
    hopSize := hopSize
    inputBuffer := RingBuffer.resize (fftSize * 4)
    outputBuffer := RingBuffer.resize (fftSize * 4)
    currentFrame := fun _ => 0
    samplesInInputBuffer := 0
    samplesInOutputBuffer := 0
    frameReady := false
    isFirstFrame := true
    synthesisScale := calculateWindowScaling fftSize hopSize }

/-- STFTProcessor::reset. -/
def stftReset (st : STFTState) : STFTState :=
  { st with
    inputBuffer := st.inputBuffer.clear
    outputBuffer := st.outputBuffer.clear
    currentFrame := fun _ => 0
    samplesInInputBuffer := 0
    samplesInOutputBuffer := 0
    frameReady := false
    isFirstFrame := true }

/-- The windowed analysis frame read from the input ring at the read
cursor (RingBuffer::read into fftInputBuffer_, then applyAnalysisWindow). -/
def stftWindowedInput (st : STFTState) : ℕ → ℝ :=
  fun i => st.inputBuffer.readAt i * hannWindow st.fftSize i

/-- STFTProcessor::processForwardTransform: window the input frame and
store its forward DFT as the current spectral frame. -/
def processForwardTransform (st : STFTState) : STFTState :=
  { st with currentFrame := fun k => dftForward st.fftSize (stftWindowedInput st) k }

/-- The input-append phase of STFTProcessor::pushAndProcess (the write
happens only for a non-null, non-empty input). -/
def stftAfterWrite (st : STFTState) (input : List ℝ) : STFTState :=
  if 0 < input.length then
    { st with
      inputBuffer := st.inputBuffer.writeList input,
      samplesInInputBuffer := st.samplesInInputBuffer + input.length }
  else st

/-- STFTProcessor::pushAndProcess: append the input, then produce at most
one frame — only when enough buffered samples exist (fftSize for the very
first frame, hopSize afterwards), no frame is already pending, and the
input ring holds a full fftSize of readable data.  Producing a frame
consumes hopSize samples and raises frameReady. -/
def pushAndProcess (st : STFTState) (input : List ℝ) : STFTState :=
  let st1 := stftAfterWrite st input
  let samplesNeeded := if st1.isFirstFrame then st1.fftSize else st1.hopSize
  if samplesNeeded ≤ st1.samplesInInputBuffer then
    if st1.frameReady then st1
    else if st1.inputBuffer.getReadableDistance < st1.fftSize then st1
    else
      let st2 := processForwardTransform st1
      { st2 with
        samplesInInputBuffer := st2.samplesInInputBuffer - st2.hopSize,
        isFirstFrame := false,
        frameReady := true,
        inputBuffer := st2.inputBuffer.advance st2.hopSize }
  else st1

/-- STFTProcessor::processInverseTransform: inverse DFT of the
Hermitian-extended current frame, synthesis windowing with the COLA scale,
overlap-add into the output ring, write cursor advanced by one hop. -/
def processInverseTransform (st : STFTState) : STFTState :=
  let timeD : ℕ → ℝ :=
    fun j => dftInverse st.fftSize (extendHermitian st.fftSize st.currentFrame) j
  let synth : List ℝ :=
    (List.range st.fftSize).map
      (fun j => applySynthesisWindowSample st.fftSize st.synthesisScale (timeD j) j)
  { st with
    outputBuffer := (st.outputBuffer.overlapAdd synth).advanceWritePosition st.hopSize,
    samplesInOutputBuffer := st.samplesInOutputBuffer + st.hopSize }

/-- STFTProcessor::setCurrentFrame: copy the (possibly modified) frame
back, run the inverse transform, clear frameReady. -/
def setCurrentFrame (st : STFTState) (frame : ℕ → ℂ) : STFTState :=
  let st1 := processInverseTransform { st with currentFrame := frame }
  { st1 with frameReady := false }

/-- STFTProcessor::processOutput: extract min(numSamples, available)
samples via readAndClear + advance, zero-filling the remainder. -/
def processOutput (st : STFTState) (numSamples : ℕ) : List ℝ × STFTState :=
  let ext := min numSamples st.samplesInOutputBuffer
  let rc := RingBuffer.readAndClearAux st.outputBuffer.data st.outputBuffer.size
      st.outputBuffer.readPos ext
  let out := rc.1 ++ List.replicate (numSamples - ext) 0
  let ob := RingBuffer.advance { st.outputBuffer with data := rc.2 } ext
  (out, { st with outputBuffer := ob,
                  samplesInOutputBuffer := st.samplesInOutputBuffer - ext })

/-- The frame-production condition of pushAndProcess, stated declaratively
over the post-append state (claim C3). -/
def producesFrame (st1 : STFTState) : Prop :=
  st1.frameReady = false ∧
  (if st1.isFirstFrame then st1.fftSize else st1.hopSize) ≤ st1.samplesInInputBuffer ∧
  st1.fftSize ≤ st1.inputBuffer.getReadableDistance

end STFT

-- ===========================================================================
-- MaskEstimator (Source/DSP/MaskEstimator.cpp)
-- ===========================================================================

namespace MaskEstimator

/-- horizontalMedianSize: 9 time frames. -/
def horizontalMedianSize : ℕ := 9

/-- verticalMedianSize: 13 frequency bins. -/
def verticalMedianSize : ℕ := 13

/-- Fast attack coefficient 0.5 of applyAsymmetricSmoothing. -/
def attackAlpha : ℝ := 0.5

/-- Slow release coefficient 0.15 of applyAsymmetricSmoothing. -/
def releaseAlpha : ℝ := 0.15

/-- MaskEstimator::clamp01. -/
def clamp01 (v : ℝ) : ℝ := if v ≤ 0 then 0 else if 1 ≤ v then 1 else v

/-- MaskEstimator::computeMedian: size 0 gives 0, size 1 the element;
otherwise the sorted middle element for odd sizes and the average of the
two middle elements for even sizes (what the two nth_element selections
compute). -/
def computeMedian (l : List ℝ) : ℝ :=
  match l with
  | [] => 0
  | [x] => x
  | _ =>
      let s := Multiset.sort (· ≤ ·) (l : Multiset ℝ)
      let m := l.length / 2
      if l.length % 2 = 1 then s.getD m 0
      else (s.getD m 0 + s.getD (m - 1) 0) * 0.5

/-- The persistent state of MaskEstimator after prepare.  The flat
magnitude-history array is modelled slot-by-slot (slot index below 9,
then bin index).  The framesReceived counter of the header is declared
but never read or written by the implementation and is omitted; the
intermediate buffers (hpssMask, fluxMask, flatnessMask, combinedMask,
smoothedMask, tempBuffer) are fully overwritten before being read within
each call and are therefore locals of the operations below. -/
structure MaskEstState where
  numBins : ℕ
  history : ℕ → ℕ → ℝ
  historyWriteIndex : ℕ
  previousMagnitudes : ℕ → ℝ
  previousSmoothedMask : ℕ → ℝ
  horizontalGuide : ℕ → ℝ
  verticalGuide : ℕ → ℝ
  spectralFlux : ℕ → ℝ
  spectralFlatness : ℕ → ℝ
  separationAmount : ℝ
  focusBias : ℝ
  spectralFloorThreshold : ℝ

/-- MaskEstimator::prepare: everything zeroed except the previous
smoothed mask, which starts at the neutral 0.5. -/
def maskPrepare (numBins : ℕ) (sep foc flo : ℝ) : MaskEstState :=
  { numBins := numBins
    history := fun _ _ => 0
    historyWriteIndex := 0
    previousMagnitudes := fun _ => 0
    previousSmoothedMask := fun _ => 0.5
    horizontalGuide := fun _ => 0
    verticalGuide := fun _ => 0
    spectralFlux := fun _ => 0
    spectralFlatness := fun _ => 0
    separationAmount := sep
    focusBias := foc
    spectralFloorThreshold := flo }

/-- MaskEstimator::reset: clears all history and statistics, restores the
neutral previous smoothed mask; the user parameters are untouched. -/
def maskReset (st : MaskEstState) : MaskEstState :=
  { st with
    history := fun _ _ => 0
    historyWriteIndex := 0
    previousMagnitudes := fun _ => 0
    previousSmoothedMask := fun _ => 0.5
    horizontalGuide := fun _ => 0
    verticalGuide := fun _ => 0
    spectralFlux := fun _ => 0
    spectralFlatness := fun _ => 0 }

/-- getHistoryFrame: frame t counted from the oldest slot. -/
def getHistoryFrame (st : MaskEstState) (t : ℕ) : ℕ → ℝ :=
  st.history ((st.historyWriteIndex + t) % horizontalMedianSize)

/-- getCurrentFrame: the most recently written slot. -/
def getCurrentFrameM (st : MaskEstState) : ℕ → ℝ :=
  st.history ((st.historyWriteIndex + (horizontalMedianSize - 1)) % horizontalMedianSize)

/-- MaskEstimator::updateGuides: write the frame into the history ring,
advance the write index, and recompute the horizontal (per-bin median
over the 9 stored frames) and vertical (median over the ±6-bin window of
the current frame) guides. -/
def updateGuides (st : MaskEstState) (mags : ℕ → ℝ) : MaskEstState :=
  let st1 : MaskEstState :=
    { st with
      history := fun slot => if slot = st.historyWriteIndex then mags else st.history slot,
      historyWriteIndex := (st.historyWriteIndex + 1) % horizontalMedianSize }
  let hGuide : ℕ → ℝ := fun bin =>
    computeMedian ((List.range horizontalMedianSize).map (fun t => getHistoryFrame st1 t bin))
  let vGuide : ℕ → ℝ := fun bin =>
    let startBin := bin - verticalMedianSize / 2
    let endBin := min st1.numBins (bin + verticalMedianSize / 2 + 1)
    let windowSize := endBin - startBin
    computeMedian ((List.range windowSize).map (fun i => getCurrentFrameM st1 (startBin + i)))
  { st1 with horizontalGuide := hGuide, verticalGuide := vGuide }

/-- The spectral flux of one bin (computeSpectralFlux): normalised
frame-to-frame magnitude change, clamped to [0,1], zero when the local
energy is sub-epsilon. -/
def spectralFluxAt (st : MaskEstState) (i : ℕ) : ℝ :=
  if kEpsilon < max (getCurrentFrameM st i) (st.previousMagnitudes i) then
    clamp01 (|getCurrentFrameM st i - st.previousMagnitudes i| /
      max (getCurrentFrameM st i) (st.previousMagnitudes i))
  else 0

/-- The list of valid (above-epsilon) magnitudes in the local flatness
window of one bin (start bin max 1 (bin-6), skipping DC, end bin
min numBins (bin+7)). -/
def flatnessValid (st : MaskEstState) (bin : ℕ) : List ℝ :=
  ((List.range (min st.numBins (bin + verticalMedianSize / 2 + 1)
      - max 1 (bin - verticalMedianSize / 2))).map
    (fun i => getCurrentFrameM st (max 1 (bin - verticalMedianSize / 2) + i))).filter
    (fun m => decide (kEpsilon < m))

/-- The spectral flatness of one bin (computeSpectralFlatness):
geometric/arithmetic mean ratio over the local window, clamped, with a
neutral 0.5 fallback for windows below 3 bins or below 3 valid bins. -/
def spectralFlatnessAt (st : MaskEstState) (bin : ℕ) : ℝ :=
  if min st.numBins (bin + verticalMedianSize / 2 + 1)
      - max 1 (bin - verticalMedianSize / 2) < 3 then 0.5
  else if 3 ≤ (flatnessValid st bin).length ∧ kEpsilon < (flatnessValid st bin).sum then
    clamp01 (Real.exp (((flatnessValid st bin).map Real.log).sum
          / ((flatnessValid st bin).length : ℝ))
        / ((flatnessValid st bin).sum / ((flatnessValid st bin).length : ℝ)))
  else 0.5

/-- MaskEstimator::updateStats: compute the spectral flux and spectral
flatness from the current frame, then store the magnitudes for the next
frame. -/
def updateStats (st : MaskEstState) (mags : ℕ → ℝ) : MaskEstState :=
  { st with spectralFlux := spectralFluxAt st,
            spectralFlatness := spectralFlatnessAt st,
            previousMagnitudes := mags }

/-- The mask exponent derived from the separation amount:
0.3 + 2t + 2.7t². -/
def maskExponentOf (t : ℝ) : ℝ := 0.3 + t * (2 + t * 2.7)

/-- The quadratic focus boost 1 + b(2 + 2b), up to 5x at the extremes. -/
def focusBoost (b : ℝ) : ℝ := 1 + b * (2 + b * 2)

/-- The tonal power estimate of one bin: squared horizontal guide with
the flux and flatness penalties applied. -/
def tonalPowerAt (st : MaskEstState) (i : ℕ) : ℝ :=
  (st.horizontalGuide i * st.horizontalGuide i) *
    ((1 - st.spectralFlux i * 0.7) * (1 - st.spectralFlatness i * 0.5))

/-- The noise power estimate of one bin: squared vertical guide with the
flux and flatness boosts applied. -/
def noisePowerAt (st : MaskEstState) (i : ℕ) : ℝ :=
  (st.verticalGuide i * st.verticalGuide i) *
    ((1 + st.spectralFlux i * 0.7 * 0.5) * (1 + st.spectralFlatness i * 0.5 * 0.5))

/-- Tonal power after the focus bias (negative bias boosts tonal). -/
def tonalPowerBoosted (st : MaskEstState) (i : ℕ) : ℝ :=
  if st.focusBias < 0 then tonalPowerAt st i * focusBoost (-st.focusBias)
  else tonalPowerAt st i

/-- Noise power after the focus bias (positive bias boosts noise). -/
def noisePowerBoosted (st : MaskEstState) (i : ℕ) : ℝ :=
  if 0 < st.focusBias then noisePowerAt st i * focusBoost st.focusBias
  else noisePowerAt st i

/-- The raw Wiener-style mask of one bin of computeMasks, before
post-processing: the epsilon-guarded power ratio raised to the mask
exponent. -/
def combinedMaskAt (st : MaskEstState) (i : ℕ) : ℝ :=
  (tonalPowerBoosted st i /
    (tonalPowerBoosted st i + noisePowerBoosted st i + kEpsilon))
    ^ maskExponentOf st.separationAmount

/-- MaskEstimator::applyAsymmetricSmoothing on one bin: attack
coefficient when the raw mask rises above the previous smoothed value,
release coefficient when it falls. -/
def asymmetricSmoothAt (current previous : ℝ) : ℝ :=
  (if previous < current then attackAlpha else releaseAlpha) * current +
    (1 - (if previous < current then attackAlpha else releaseAlpha)) * previous

/-- Weight of the left neighbour in applyFrequencyBlur (0.25 when bin
i-1 is in range, else the term is skipped). -/
def blurWL (n i : ℕ) : ℝ := if 1 ≤ i ∧ i - 1 < n then 0.25 else 0

/-- Weight of the center bin in applyFrequencyBlur. -/
def blurWC (n i : ℕ) : ℝ := if i < n then 0.5 else 0

/-- Weight of the right neighbour in applyFrequencyBlur. -/
def blurWR (n i : ℕ) : ℝ := if i + 1 < n then 0.25 else 0

/-- MaskEstimator::applyFrequencyBlur on one bin: ±1-bin weighted
average (center 0.5, neighbours 0.25) over the in-range neighbours,
guarded by the epsilon test on the total weight. -/
def applyFrequencyBlurAt (n : ℕ) (m : ℕ → ℝ) (i : ℕ) : ℝ :=
  if kEpsilon < blurWL n i + blurWC n i + blurWR n i then
    (blurWL n i * m (i - 1) + blurWC n i * m i + blurWR n i * m (i + 1))
      / (blurWL n i + blurWC n i + blurWR n i)
  else m i

/-- MaskEstimator::applySpectralFloor on one value: below the floor
level thr/2, cubic ease-out toward 0 (with interpolation parameter
mask/floorLevel); above the ceiling level 1 - thr/2, cubic ease-in
toward 1 (parameter (mask-ceiling)/(1-ceiling)); a non-positive
threshold is a no-op. -/
def applySpectralFloorVal (thr mask : ℝ) : ℝ :=
  if thr ≤ 0 then mask
  else if mask < thr * 0.5 then
    (mask / (thr * 0.5)) * (mask / (thr * 0.5)) * (mask / (thr * 0.5)) * (thr * 0.5)
  else if 1 - thr * 0.5 < mask then
    (1 - thr * 0.5) + (1 - (1 - thr * 0.5)) *
      (1 - (1 - (mask - (1 - thr * 0.5)) / (1 - (1 - thr * 0.5)))
         * (1 - (mask - (1 - thr * 0.5)) / (1 - (1 - thr * 0.5)))
         * (1 - (mask - (1 - thr * 0.5)) / (1 - (1 - thr * 0.5))))
  else mask

/-- MaskEstimator::computeMasks: Wiener-style mask, asymmetric temporal
smoothing, frequency blur, spectral floor; the tonal mask is the result,
the noise mask its complement 1 - tonal, and the final smoothed mask is
stored as the previous smoothed mask for the next frame. -/
def computeMasks (st : MaskEstState) : (ℕ → ℝ) × (ℕ → ℝ) × MaskEstState :=
  let smoothed1 : ℕ → ℝ := fun i => asymmetricSmoothAt (combinedMaskAt st i) (st.previousSmoothedMask i)
  let blurred : ℕ → ℝ := applyFrequencyBlurAt st.numBins smoothed1
  let floored : ℕ → ℝ := fun i => applySpectralFloorVal st.spectralFloorThreshold (blurred i)
  let tonalMask := floored
  let noiseMask : ℕ → ℝ := fun i => 1 - tonalMask i
  (tonalMask, noiseMask, { st with previousSmoothedMask := floored })

/-- One full per-frame protocol step: updateGuides, updateStats,
computeMasks, as HPSSProcessor::processBlock invokes them. -/
def processFrame (st : MaskEstState) (mags : ℕ → ℝ) :
    (ℕ → ℝ) × (ℕ → ℝ) × MaskEstState :=
  computeMasks (updateStats (updateGuides st mags) mags)

/-- A sequence of per-frame steps, collecting the mask pairs. -/
def runFrames (st : MaskEstState) : List (ℕ → ℝ) → List ((ℕ → ℝ) × (ℕ → ℝ)) × MaskEstState
  | [] => ([], st)
  | f :: fs =>
      let r := processFrame st f
      let rest := runFrames r.2.2 fs
      ((r.1, r.2.1) :: rest.1, rest.2)

end MaskEstimator

-- ===========================================================================
-- juce::SmoothedValue<float, Linear> (external; modelled from the JUCE
-- sources the plugin links against)
-- ===========================================================================

namespace SmoothedValue

/-- The linear-ramp smoother state. -/
@[ext]
structure State where
  currentValue : ℝ
  target : ℝ
  step : ℝ
  countdown : ℤ
  stepsToTarget : ℤ

/-- Default-constructed smoother (initial value 0). -/
def init : State := ⟨0, 0, 0, 0, 0⟩

/-- setCurrentAndTargetValue. -/
def setCurrentAndTargetValue (s : State) (v : ℝ) : State :=
  { s with currentValue := v, target := v, countdown := 0 }

/-- reset(numSteps): store the ramp length and snap the current value to
the stored target. -/
def resetSteps (s : State) (numSteps : ℤ) : State :=
  { setCurrentAndTargetValue s s.target with stepsToTarget := numSteps }

/-- reset(sampleRate, rampLengthInSeconds). -/
def reset (s : State) (sampleRate rampLengthInSeconds : ℝ) : State :=
  resetSteps s ⌊rampLengthInSeconds * sampleRate⌋

/-- setTargetValue: no-op on the current target; with no ramp configured
it snaps, otherwise it restarts the countdown with the linear step. -/
def setTargetValue (s : State) (newValue : ℝ) : State :=
  if newValue = s.target then s
  else if s.stepsToTarget ≤ 0 then setCurrentAndTargetValue s newValue
  else
    { s with target := newValue, countdown := s.stepsToTarget,
             step := (newValue - s.currentValue) / (s.stepsToTarget : ℝ) }

/-- skip(numSamples): snap to the target when the countdown is exhausted,
otherwise advance linearly. -/
def skip (s : State) (numSamples : ℤ) : State :=
  if s.countdown ≤ numSamples then setCurrentAndTargetValue s s.target
  else
    { s with currentValue := s.currentValue + s.step * (numSamples : ℝ),
             countdown := s.countdown - numSamples }

end SmoothedValue


-- ===========================================================================
-- HPSSProcessor (Source/DSP/HPSSProcessor.cpp)
-- ===========================================================================

namespace HPSS

open STFT MaskEstimator MagPhaseFrame

/-- The bypass delay line: bypassBuffer_ with its write and read cursors
(HPSSProcessor prepare sizes it to latency + maxBlockSize, write cursor
starting latency samples ahead of the read cursor). -/
structure BypassState where
  size : ℕ
  buf : ℕ → ℝ
  writePos : ℕ
  readPos : ℕ

/-- The write loop of HPSSProcessor::processBypass: every input sample is
stored at the write cursor, which advances modulo the buffer size. -/
def bypassWriteList (s : BypassState) : List ℝ → BypassState
  | [] => s
  | x :: xs =>
      bypassWriteList
        { s with buf := Function.update s.buf (s.writePos % s.size) x,
                 writePos := (s.writePos + 1) % s.size } xs

/-- The read loop of HPSSProcessor::processBypass: numSamples delayed
samples are taken at the read cursor, which advances modulo the size. -/
def bypassReadN (s : BypassState) : ℕ → List ℝ × BypassState
  | 0 => ([], s)
  | Nat.succ n =>
      let x := s.buf (s.readPos % s.size)
      let rest := bypassReadN { s with readPos := (s.readPos + 1) % s.size } n
      (x :: rest.1, rest.2)

/-- HPSSProcessor::processBypass: write the block, then read the same
number of delayed samples. -/
def processBypass (s : BypassState) (input : List ℝ) : List ℝ × BypassState :=
  bypassReadN (bypassWriteList s input) input.length

/-- Iterated processBypass over a sequence of blocks, concatenating the
emitted output. -/
def processBypassBlocks (s : BypassState) : List (List ℝ) → List ℝ × BypassState
  | [] => ([], s)
  | b :: bs =>
      let r := processBypass s b
      let rest := processBypassBlocks r.2 bs
      (r.1 ++ rest.1, rest.2)

/-- HPSSProcessor::softLimit: pass-through below the -1dB threshold
0.891, tanh soft knee with ratio 8 above it, hard ceiling 0.99. -/
def softLimit (input : ℝ) : ℝ :=
  if |input| ≤ 0.891 then input
  else
    let sign : ℝ := if 0 ≤ input then 1 else -1
    let excess := |input| - 0.891
    let compressed := 0.891 + Real.tanh (excess * 8) / 8
    sign * (if 0.99 < compressed then 0.99 else compressed)

/-- The whole state of HPSSProcessor after prepare.  tempOutputBuffer_ is
allocated but never read or written by processBlock and is omitted. -/
structure HPSSState where
  stft : STFTState
  magMagnitudes : ℕ → ℝ
  magPhases : ℕ → ℝ
  maskEst : MaskEstState
  tonalGainSmoother : SmoothedValue.State
  noiseGainSmoother : SmoothedValue.State
  tonalMaskBuffer : ℕ → ℝ
  noiseMaskBuffer : ℕ → ℝ
  bypass : BypassState
  bypassEnabled : Bool
  safetyLimitingEnabled : Bool
  debugPassthroughEnabled : Bool
  numBins : ℕ
  currentBlockSize : ℕ
  currentSampleRate : ℝ

/-- HPSSProcessor::getLatencyInSamples. -/
def hpssLatency (st : HPSSState) : ℕ := st.stft.getLatencyInSamples

/-- HPSSProcessor constructor plus prepare(sampleRate, maxBlockSize):
STFT configured 2048/512 (high quality) or 1024/256 (low latency), mask
estimator prepared with the default separation 0.75 and neutral focus,
smoothers reset to a 20ms ramp (initial value and target 0), and the
bypass delay line sized latency + maxBlockSize with the write cursor
latency samples ahead. -/
def hpssPrepare (highQuality : Bool) (sampleRate : ℝ) (maxBlockSize : ℕ) : HPSSState :=
  let fftSize : ℕ := if highQuality then 2048 else 1024
  let hopSize : ℕ := if highQuality then 512 else 256
  let stft := stftPrepare fftSize hopSize
  let latency := fftSize - hopSize
  { stft := stft
    magMagnitudes := fun _ => 0
    magPhases := fun _ => 0
    maskEst := maskPrepare (fftSize / 2 + 1) 0.75 0 0
    tonalGainSmoother := SmoothedValue.reset SmoothedValue.init sampleRate 0.02
    noiseGainSmoother := SmoothedValue.reset SmoothedValue.init sampleRate 0.02
    tonalMaskBuffer := fun _ => 0
    noiseMaskBuffer := fun _ => 0
    bypass := ⟨latency + maxBlockSize, fun _ => 0, latency, 0⟩
    bypassEnabled := false
    safetyLimitingEnabled := true
    debugPassthroughEnabled := false
    numBins := fftSize / 2 + 1
    currentBlockSize := maxBlockSize
    currentSampleRate := sampleRate }

/-- HPSSProcessor::reset: resets the three components, resets both
smoothers (JUCE semantics: current value snaps to the stored target),
clears the mask buffers and the bypass delay line, and restores the
latency offset of the bypass cursors. -/
def hpssReset (st : HPSSState) : HPSSState :=
  { st with
    stft := stftReset st.stft
    magMagnitudes := fun _ => 0
    magPhases := fun _ => 0
    maskEst := maskReset st.maskEst
    tonalGainSmoother := SmoothedValue.reset st.tonalGainSmoother st.currentSampleRate 0.02
    noiseGainSmoother := SmoothedValue.reset st.noiseGainSmoother st.currentSampleRate 0.02
    tonalMaskBuffer := fun _ => 0
    noiseMaskBuffer := fun _ => 0
    bypass := { st.bypass with buf := fun _ => 0, writePos := hpssLatency st, readPos := 0 } }

/-- One iteration of the frame loop of HPSSProcessor::processBlock
(non-debug path): convert the current spectral frame to magnitude/phase,
run the mask estimator protocol, read the smoothed gains, advance the
smoothers by one hop, apply masks and gains to the magnitudes, convert
back, hand the frame to the STFT engine, and try to trigger another
frame from buffered input. -/
def hpssProcessFrame (st : HPSSState) : HPSSState :=
  let complexFrame := st.stft.currentFrame
  let mags : ℕ → ℝ := fun i => (fromComplexBin (complexFrame i)).1
  let phs : ℕ → ℝ := fun i => (fromComplexBin (complexFrame i)).2
  let cm := MaskEstimator.processFrame st.maskEst mags
  let tonalMask := cm.1
  let noiseMask := cm.2.1
  let currentTonalGain := st.tonalGainSmoother.currentValue
  let currentNoiseGain := st.noiseGainSmoother.currentValue
  let sT := SmoothedValue.skip st.tonalGainSmoother (st.stft.hopSize : ℤ)
  let sN := SmoothedValue.skip st.noiseGainSmoother (st.stft.hopSize : ℤ)
  let newMags : ℕ → ℝ := fun i =>
    mags i * tonalMask i * currentTonalGain + mags i * noiseMask i * currentNoiseGain
  let newFrame : ℕ → ℂ := fun i => magPhaseToComplex (newMags i) (phs i)
  let stft1 := STFT.setCurrentFrame st.stft newFrame
  let stft2 := STFT.pushAndProcess stft1 []
  { st with stft := stft2, magMagnitudes := newMags, magPhases := phs,
            maskEst := cm.2.2, tonalMaskBuffer := tonalMask, noiseMaskBuffer := noiseMask,
            tonalGainSmoother := sT, noiseGainSmoother := sN }

/-- One iteration of the frame loop in debug passthrough mode: the frame
is handed back unchanged and another frame is attempted. -/
def hpssProcessFrameDebug (st : HPSSState) : HPSSState :=
  { st with stft := STFT.pushAndProcess (STFT.setCurrentFrame st.stft st.stft.currentFrame) [] }

/-- The while (isFrameReady) loop of processBlock, with explicit fuel.
Each iteration that continues consumes at least one hop of buffered
input, so any fuel exceeding the buffered sample count makes this equal
to the C++ loop. -/
def hpssProcessFrames : ℕ → HPSSState → HPSSState
  | 0, st => st
  | Nat.succ fuel, st =>
      if st.stft.frameReady then
        hpssProcessFrames fuel
          (if st.debugPassthroughEnabled then hpssProcessFrameDebug st else hpssProcessFrame st)
      else st

/-- The result of one processBlock call: the mixed output and the
optional tonal/noise monitor outputs. -/
structure BlockResult where
  output : List ℝ
  tonalOut : Option (List ℝ)
  noiseOut : Option (List ℝ)
  state : HPSSState

/-- The proportional-share factor of the monitor-output derivation
(HPSSProcessor.cpp lines 223-240): gain / (gain + otherGain), a plain
float division with no epsilon guard.  A zero denominator makes the IEEE
division non-finite (0/0 is NaN); the embedding returns none for that
case and some of the real quotient otherwise. -/
def monitorShare (gain otherGain : ℝ) : Option ℝ :=
  if gain + otherGain = 0 then none else some (gain / (gain + otherGain))

/-- The full spectral pipeline of HPSSProcessor::processBlock (taken when
neither bypass nor the unity fast path applies): retarget the smoothers,
push the block, drain all ready frames, extract the output, apply safety
limiting and denormal flushing, and derive the optional monitor outputs
by proportional shares (here with the real total division; its
fallibility is captured by monitorShare). -/
def fullSt2 (st : HPSSState) (input : List ℝ) (tonalGain noiseGain : ℝ) : HPSSState :=
  { st with
    tonalGainSmoother := SmoothedValue.setTargetValue st.tonalGainSmoother tonalGain,
    noiseGainSmoother := SmoothedValue.setTargetValue st.noiseGainSmoother noiseGain,
    stft := STFT.pushAndProcess st.stft input }

/-- The state after the frame loop of the full pipeline (the fuel bound
exceeds the number of buffered samples, so it equals the C++ while
loop). -/
def fullSt3 (st : HPSSState) (input : List ℝ) (tonalGain noiseGain : ℝ) : HPSSState :=
  hpssProcessFrames ((fullSt2 st input tonalGain noiseGain).stft.samplesInInputBuffer + 1)
    (fullSt2 st input tonalGain noiseGain)

def processBlockFull (st : HPSSState) (input : List ℝ) (tonalGain noiseGain : ℝ)
    (wantTonal wantNoise : Bool) : BlockResult :=
  let st3 := fullSt3 st input tonalGain noiseGain
  let po := STFT.processOutput st3.stft input.length
  let st4 : HPSSState := { st3 with stft := po.2 }
  let out1 := if st4.safetyLimitingEnabled && !st4.debugPassthroughEnabled
              then po.1.map softLimit else po.1
  let out2 := out1.map flushDenormal
  let tDen := st4.tonalGainSmoother.currentValue + st4.noiseGainSmoother.currentValue
  { output := out2
    tonalOut := if wantTonal
      then some (out2.map (fun x => x * (st4.tonalGainSmoother.currentValue / tDen))) else none
    noiseOut := if wantNoise
      then some (out2.map (fun x => x * (st4.noiseGainSmoother.currentValue / tDen))) else none
    state := st4 }

/-- HPSSProcessor::processBlock.  Bypass branch, unity-gain fast path
(both requested gains and both smoothers' current and target values
within kEpsilon of 1), or the full spectral pipeline. -/
def processBlock (st : HPSSState) (input : List ℝ) (tonalGain noiseGain : ℝ)
    (wantTonal wantNoise : Bool) : BlockResult :=
  if st.bypassEnabled then
    let r := processBypass st.bypass input
    { output := r.1
      tonalOut := if wantTonal then some (List.replicate input.length 0) else none
      noiseOut := if wantNoise then some (List.replicate input.length 0) else none
      state := { st with bypass := r.2 } }
  else if |tonalGain - 1| < kEpsilon ∧ |noiseGain - 1| < kEpsilon ∧
          |st.tonalGainSmoother.currentValue - 1| < kEpsilon ∧
          |st.noiseGainSmoother.currentValue - 1| < kEpsilon ∧
          |st.tonalGainSmoother.target - 1| < kEpsilon ∧
          |st.noiseGainSmoother.target - 1| < kEpsilon then
    let r := processBypass st.bypass input
    { output := r.1
      tonalOut := if wantTonal then some input else none
      noiseOut := if wantNoise then some (List.replicate input.length 0) else none
      state := { st with bypass := r.2 } }
  else processBlockFull st input tonalGain noiseGain wantTonal wantNoise

/-- Iterated processBlock with fixed gains and no monitor outputs,
concatenating the emitted audio. -/
def runBlocks (st : HPSSState) (g1 g2 : ℝ) : List (List ℝ) → List ℝ × HPSSState
  | [] => ([], st)
  | b :: bs =>
      let r := processBlock st b g1 g2 false false
      let rest := runBlocks r.state g1 g2 bs
      (r.output ++ rest.1, rest.2)

/-- The unity-gain entry condition of tryUnityGainPath together with the
smoother check, as a predicate on the state and the requested gains. -/
def unityGainConditions (st : HPSSState) (tonalGain noiseGain : ℝ) : Prop :=
  |tonalGain - 1| < kEpsilon ∧ |noiseGain - 1| < kEpsilon ∧
  |st.tonalGainSmoother.currentValue - 1| < kEpsilon ∧
  |st.noiseGainSmoother.currentValue - 1| < kEpsilon ∧
  |st.tonalGainSmoother.target - 1| < kEpsilon ∧
  |st.noiseGainSmoother.target - 1| < kEpsilon

end HPSS

-- ===========================================================================
-- Concrete scenario for the reset claim (C9): a low-latency instance at
-- 48kHz with 1024-sample blocks, driven by one block of ones at unity
-- gains, then reset, versus a freshly prepared instance on the same block.
-- ===========================================================================

namespace HPSS

/-- One 1024-sample block of full-scale DC input. -/
def c9Input : List ℝ := List.replicate 1024 1

/-- A freshly prepared low-latency instance (1024/256, latency 768). -/
def c9Fresh : HPSSState := hpssPrepare false 48000 1024

/-- The fresh instance processing the block at unity gains. -/
def c9FreshRun : BlockResult := processBlock c9Fresh c9Input 1 1 false false

/-- The same instance reset after that block. -/
def c9ResetInst : HPSSState := hpssReset c9FreshRun.state

/-- The reset instance processing the identical block at unity gains. -/
def c9ResetRun : BlockResult := processBlock c9ResetInst c9Input 1 1 false false

/-- The input ring of the fresh instance after the block is written. -/
def c9W : STFT.RingBuffer := (STFT.RingBuffer.resize 4096).writeList c9Input

/-- The engine state right after the append phase of the first
pushAndProcess call. -/
def c9AW : STFT.STFTState :=
  { STFT.stftPrepare 1024 256 with inputBuffer := c9W, samplesInInputBuffer := 1024 }

/-- The engine state after the first pushAndProcess call: one analysis
frame produced, one hop consumed. -/
def c9Pushed : STFT.STFTState :=
  { fftSize := 1024
    hopSize := 256
    inputBuffer := c9W.advance 256
    outputBuffer := STFT.RingBuffer.resize 4096
    currentFrame := (STFT.processForwardTransform c9AW).currentFrame
    samplesInInputBuffer := 768
    samplesInOutputBuffer := 0
    frameReady := true
    isFirstFrame := false
    synthesisScale := STFT.calculateWindowScaling 1024 256 }

/-- The coordinator state entering the frame loop of the fresh run. -/
def c9St2 : HPSSState :=
  { c9Fresh with
    tonalGainSmoother := SmoothedValue.setTargetValue c9Fresh.tonalGainSmoother 1,
    noiseGainSmoother := SmoothedValue.setTargetValue c9Fresh.noiseGainSmoother 1,
    stft := c9Pushed }

/-- The engine state after the frame loop of the fresh run hands back the
zero-gain frame: an all-zero synthesis frame is overlap-added (leaving
the output ring all-zero) and frameReady is cleared. -/
def c9SCz : STFT.STFTState := STFT.setCurrentFrame c9Pushed (fun _ => 0)

end HPSS

-- ===========================================================================
-- Further concrete instances used by witnesses, and the declarative
-- bypass-delay-line invariant used by the unity-transparency claim.
-- ===========================================================================

namespace HPSS

/-- The delay-line invariant: the buffer region between the read and
write cursors holds the pending (not yet emitted) delayed samples. -/
def BypassInv (s : BypassState) (pending : List ℝ) : Prop :=
  0 < s.size ∧ s.readPos < s.size ∧
  s.writePos = (s.readPos + pending.length) % s.size ∧
  pending.length ≤ s.size ∧
  ∀ j, j < pending.length → s.buf ((s.readPos + j) % s.size) = pending.getD j 0

/-- A prepared low-latency instance whose gain smoothers have settled at
exactly 1 (as they are after ramping to unity gain), used to exercise the
unity fast path. -/
def unitySettled : HPSSState :=
  { hpssPrepare false 48000 4 with
    tonalGainSmoother := ⟨1, 1, 0, 0, 960⟩,
    noiseGainSmoother := ⟨1, 1, 0, 0, 960⟩ }

end HPSS

/-- An extreme but float-representable bin (re 1e37, im 1) whose phase
atan2(1, 1e37) lies strictly between 0 and the denormal threshold. -/
def c6cex : ℂ := ⟨1e37, 1⟩

/-- A prepared 4/2 STFT instance whose input ring already holds one full
analysis window of samples. -/
def c3St : STFT.STFTState :=
  { STFT.stftPrepare 4 2 with
    samplesInInputBuffer := 4,
    inputBuffer := ⟨16, fun _ => 0, 4, 0⟩ }

-- ===========================================================================
-- Theorems
-- ===========================================================================

-- ---------------------------------------------------------------------------
-- Claim C2: COLA synthesis scaling
-- ---------------------------------------------------------------------------

/-- Claim C2: the synthesis COLA correction factor equals 2/3 when the
overlap factor fftSize/hopSize is within 0.001 of 4, equals 1.0 when it
is within 0.001 of 2, and equals 2/overlapFactor otherwise; and the
resulting scale is multiplied uniformly into every synthesis sample after
the synthesis window is applied. -/
theorem C2_cola_scaling (fftSize hopSize : ℕ) :
    (|STFT.overlapFactor fftSize hopSize - 4| < 0.001 →
        STFT.calculateWindowScaling fftSize hopSize = 2 / 3) ∧
    (|STFT.overlapFactor fftSize hopSize - 2| < 0.001 →
        STFT.calculateWindowScaling fftSize hopSize = 1) ∧
    (¬ |STFT.overlapFactor fftSize hopSize - 4| < 0.001 →
     ¬ |STFT.overlapFactor fftSize hopSize - 2| < 0.001 →
        STFT.calculateWindowScaling fftSize hopSize
          = 2 / STFT.overlapFactor fftSize hopSize) ∧
    (∀ x j, STFT.applySynthesisWindowSample fftSize
              (STFT.calculateWindowScaling fftSize hopSize) x j
        = x * STFT.hannWindow fftSize j * STFT.calculateWindowScaling fftSize hopSize) := by
  refine ⟨fun h4 => ?_, fun h2 => ?_, fun h4 h2 => ?_, fun x j => rfl⟩
  · rw [STFT.calculateWindowScaling, STFT.colaFactor, if_pos h4]
    ring
  · have h4 : ¬ |STFT.overlapFactor fftSize hopSize - 4| < 0.001 := by
      rcases abs_lt.mp h2 with ⟨hl, hr⟩
      rw [not_lt, le_abs]
      right
      linarith
    rw [STFT.calculateWindowScaling, STFT.colaFactor, if_neg h4, if_pos h2]
    ring
  · rw [STFT.calculateWindowScaling, STFT.colaFactor, if_neg h4, if_neg h2]
    ring

/-- Witness for C2 at the high-quality configuration 2048/512
(overlap factor exactly 4). -/
theorem C2_cola_scaling_witness :
    |STFT.overlapFactor 2048 512 - 4| < 0.001 ∧
    STFT.calculateWindowScaling 2048 512 = 2 / 3 := by
  have h : |STFT.overlapFactor 2048 512 - 4| < 0.001 := by
    rw [STFT.overlapFactor]
    norm_num
  exact ⟨h, (C2_cola_scaling 2048 512).1 h⟩

-- ---------------------------------------------------------------------------
-- Claim C4: exact mask complementarity
-- ---------------------------------------------------------------------------

/-- Claim C4: for every frame and bin, the noise mask returned by
computeMasks is exactly 1 minus the tonal mask of the same call (computed
after floor-sharpening), so their sum is exactly 1 and in particular
within 0.1 of 1. -/
theorem C4_mask_complementarity (st : MaskEstimator.MaskEstState) (i : ℕ) :
    (MaskEstimator.computeMasks st).2.1 i = 1 - (MaskEstimator.computeMasks st).1 i ∧
    (MaskEstimator.computeMasks st).1 i + (MaskEstimator.computeMasks st).2.1 i = 1 ∧
    |(MaskEstimator.computeMasks st).1 i + (MaskEstimator.computeMasks st).2.1 i - 1|
      ≤ 0.1 := by
  refine ⟨rfl, by simp [MaskEstimator.computeMasks], ?_⟩
  simp only [MaskEstimator.computeMasks]
  norm_num

-- ---------------------------------------------------------------------------
-- Claim C7: monitor-output proportional shares
-- ---------------------------------------------------------------------------

/-- Claim C7, corrected: the proportional-share derivation for the
optional monitor outputs divides by exactly tonal+noise with no epsilon
guard; for every pair of non-negative smoothed gains whose sum is
positive, both shares are finite values in [0,1] summing to 1.  (The
both-zero case divides by exactly zero; see the counterexample.) -/
theorem C7_monitor_shares (t n : ℝ) (ht : 0 ≤ t) (hn : 0 ≤ n) (hpos : 0 < t + n) :
    HPSS.monitorShare t n = some (t / (t + n)) ∧
    HPSS.monitorShare n t = some (n / (t + n)) ∧
    0 ≤ t / (t + n) ∧ t / (t + n) ≤ 1 ∧
    0 ≤ n / (t + n) ∧ n / (t + n) ≤ 1 ∧
    t / (t + n) + n / (t + n) = 1 := by
  have hne : t + n ≠ 0 := ne_of_gt hpos
  refine ⟨by rw [HPSS.monitorShare, if_neg hne], ?_, ?_, ?_, ?_, ?_, ?_⟩
  · rw [HPSS.monitorShare, if_neg (by rw [add_comm]; exact hne), add_comm n t]
  · exact div_nonneg ht (le_of_lt hpos)
  · rw [div_le_one hpos]; linarith
  · exact div_nonneg hn (le_of_lt hpos)
  · rw [div_le_one hpos]; linarith
  · field_simp

/-- Witness for C7 at gains (1, 0). -/
theorem C7_monitor_shares_witness :
    HPSS.monitorShare (1 : ℝ) 0 = some (1 / (1 + 0)) := by
  exact (C7_monitor_shares 1 0 (by norm_num) (by norm_num) (by norm_num)).1

/-- Counterexample to C7 as stated: with both smoothed gains zero the
denominator of the share is exactly zero (no epsilon guard exists), so
the IEEE division is not finite — the embedding returns none. -/
theorem C7_counterexample : HPSS.monitorShare (0 : ℝ) 0 = none := by
  rw [HPSS.monitorShare, if_pos (by norm_num)]

-- ---------------------------------------------------------------------------
-- Claim C8: no exception escapes under the documented preconditions
-- ---------------------------------------------------------------------------

/-- Claim C8: under the documented preconditions — the frame is prepared
(positive bin count) and every span has exactly numBins entries — every
throwing branch of MagPhaseFrame's prepare, fromComplex, toComplex and
accessors is unreachable, which is how processBlock invokes them. -/
theorem C8_no_throw (st : MagPhaseFrame.MPState) (frame : List ℂ) (n : ℕ)
    (hn : 0 < n) (hmag : st.magnitudeData.length = n) (hframe : frame.length = n) :
    (∃ r, MagPhaseFrame.prepareE (n : ℤ) = .ok r) ∧
    (∃ r, MagPhaseFrame.fromComplexE st frame = .ok r) ∧
    (∃ r, MagPhaseFrame.toComplexE st n = .ok r) ∧
    (∃ r, MagPhaseFrame.getMagnitudesE st = .ok r) := by
  have hlen0 : ¬ st.magnitudeData.length = 0 := by omega
  have hneg : ¬ (n : ℤ) ≤ 0 := by omega
  refine ⟨?_, ?_, ?_, ?_⟩
  · rw [MagPhaseFrame.prepareE, if_neg hneg]
    exact ⟨_, rfl⟩
  · rw [MagPhaseFrame.fromComplexE, if_neg hlen0, if_neg (by omega)]
    exact ⟨_, rfl⟩
  · rw [MagPhaseFrame.toComplexE, if_neg hlen0, if_neg (by omega)]
    exact ⟨_, rfl⟩
  · rw [MagPhaseFrame.getMagnitudesE, if_neg hlen0]
    exact ⟨_, rfl⟩

/-- Witness for C8: a one-bin prepared frame with a matching span. -/
theorem C8_no_throw_witness :
    ∃ r, MagPhaseFrame.fromComplexE ⟨[0], [0]⟩ [0] = .ok r :=
  (C8_no_throw ⟨[0], [0]⟩ [0] 1 (by norm_num) (by simp) (by simp)).2.1

-- ---------------------------------------------------------------------------
-- Claim C3: frame production protocol of pushAndProcess
-- ---------------------------------------------------------------------------

/-- Claim C3: a call to pushAndProcess produces at most one frame.  It
produces one exactly when, after the input append, no frame is pending,
the buffered count reaches fftSize for the very first frame (hopSize for
later ones), and the ring's readable distance reaches fftSize.  When no
frame is produced the state is exactly the post-append state; when one is
produced, exactly hopSize samples are consumed (the read cursor advances
by hopSize and the buffered count drops by hopSize) and frameReady is
raised. -/
theorem C3_pushAndProcess (st : STFT.STFTState) (input : List ℝ)
    (hvalid : st.hopSize ≤ st.fftSize) :
    (¬ STFT.producesFrame (STFT.stftAfterWrite st input) →
        STFT.pushAndProcess st input = STFT.stftAfterWrite st input) ∧
    (STFT.producesFrame (STFT.stftAfterWrite st input) →
        (STFT.pushAndProcess st input).frameReady = true ∧
        (STFT.pushAndProcess st input).samplesInInputBuffer + st.hopSize
            = (STFT.stftAfterWrite st input).samplesInInputBuffer ∧
        (STFT.pushAndProcess st input).inputBuffer.readPos
            = ((STFT.stftAfterWrite st input).inputBuffer.readPos + st.hopSize)
               % (STFT.stftAfterWrite st input).inputBuffer.size ∧
        (STFT.pushAndProcess st input).inputBuffer.writePos
            = (STFT.stftAfterWrite st input).inputBuffer.writePos ∧
        (STFT.pushAndProcess st input).inputBuffer.data
            = (STFT.stftAfterWrite st input).inputBuffer.data ∧
        (STFT.pushAndProcess st input).isFirstFrame = false ∧
        (STFT.pushAndProcess st input).outputBuffer
            = (STFT.stftAfterWrite st input).outputBuffer ∧
        (STFT.pushAndProcess st input).samplesInOutputBuffer
            = (STFT.stftAfterWrite st input).samplesInOutputBuffer) := by
  have stftAfterWrite_fields : (STFT.stftAfterWrite st input).fftSize = st.fftSize ∧
      (STFT.stftAfterWrite st input).hopSize = st.hopSize := by
    unfold STFT.stftAfterWrite
    split <;> exact ⟨rfl, rfl⟩
  obtain ⟨hf, hh⟩ := stftAfterWrite_fields
  constructor
  · intro hnp
    unfold STFT.pushAndProcess
    by_cases h1 : (if (STFT.stftAfterWrite st input).isFirstFrame
        then (STFT.stftAfterWrite st input).fftSize
        else (STFT.stftAfterWrite st input).hopSize)
          ≤ (STFT.stftAfterWrite st input).samplesInInputBuffer
    · rw [if_pos h1]
      by_cases h2 : (STFT.stftAfterWrite st input).frameReady
      · rw [if_pos h2]
      · rw [if_neg h2]
        by_cases h3 : (STFT.stftAfterWrite st input).inputBuffer.getReadableDistance
            < (STFT.stftAfterWrite st input).fftSize
        · rw [if_pos h3]
        · exact absurd ⟨Bool.not_eq_true _ ▸ h2, h1, not_lt.mp h3⟩ hnp
    · rw [if_neg h1]
  · rintro ⟨hfr, hneed, hread⟩
    have hfr2 : ¬ ((STFT.stftAfterWrite st input).frameReady = true) := by
      rw [hfr]; simp
    have hhople : st.hopSize ≤ (STFT.stftAfterWrite st input).samplesInInputBuffer := by
      by_cases hff : (STFT.stftAfterWrite st input).isFirstFrame
      · rw [if_pos hff] at hneed
        calc st.hopSize ≤ st.fftSize := hvalid
          _ = (STFT.stftAfterWrite st input).fftSize := hf.symm
          _ ≤ _ := hneed
      · rw [if_neg hff] at hneed
        rw [← hh]; exact hneed
    unfold STFT.pushAndProcess
    rw [if_pos hneed, if_neg hfr2, if_neg (not_lt.mpr hread)]
    refine ⟨rfl, ?_, ?_, rfl, rfl, rfl, rfl, rfl⟩
    · show (STFT.stftAfterWrite st input).samplesInInputBuffer
        - (STFT.stftAfterWrite st input).hopSize + st.hopSize = _
      rw [hh]
      exact Nat.sub_add_cancel hhople
    · show ((STFT.stftAfterWrite st input).inputBuffer.readPos
        + (STFT.stftAfterWrite st input).hopSize) % _ = _
      rw [hh]
      rfl

/-- Witness for C3: the prepared 4/2 instance with a full window buffered
produces a frame on a null push. -/
theorem C3_pushAndProcess_witness :
    (STFT.pushAndProcess c3St []).frameReady = true ∧
    (STFT.pushAndProcess c3St []).samplesInInputBuffer + 2 = 4 := by
  have hvalid : c3St.hopSize ≤ c3St.fftSize := by norm_num [c3St, STFT.stftPrepare]
  have hw : STFT.stftAfterWrite c3St [] = c3St := by
    unfold STFT.stftAfterWrite
    norm_num
  have hp : STFT.producesFrame (STFT.stftAfterWrite c3St []) := by
    rw [hw]
    refine ⟨rfl, ?_, ?_⟩ <;>
      norm_num [c3St, STFT.stftPrepare, STFT.RingBuffer.getReadableDistance]
  have h := (C3_pushAndProcess c3St [] hvalid).2 hp
  refine ⟨h.1, ?_⟩
  have h2 := h.2.1
  rw [hw] at h2
  simpa [c3St, STFT.stftPrepare] using h2

-- ---------------------------------------------------------------------------
-- Claim C10: monitor outputs on the bypass and unity fast paths
-- ---------------------------------------------------------------------------

/-- Claim C10: on the unity fast path the tonal monitor receives an
undelayed copy of the input block while the main output is the delayed
signal and the noise monitor is exactly zeros; in bypass mode both
monitors are cleared to silence instead. -/
theorem C10_monitor_fast_paths (st : HPSS.HPSSState) (input : List ℝ) (g1 g2 : ℝ) :
    (st.bypassEnabled = true →
      (HPSS.processBlock st input g1 g2 true true).tonalOut
        = some (List.replicate input.length 0) ∧
      (HPSS.processBlock st input g1 g2 true true).noiseOut
        = some (List.replicate input.length 0) ∧
      (HPSS.processBlock st input g1 g2 true true).output
        = (HPSS.processBypass st.bypass input).1) ∧
    (st.bypassEnabled = false → HPSS.unityGainConditions st g1 g2 →
      (HPSS.processBlock st input g1 g2 true true).tonalOut = some input ∧
      (HPSS.processBlock st input g1 g2 true true).noiseOut
        = some (List.replicate input.length 0) ∧
      (HPSS.processBlock st input g1 g2 true true).output
        = (HPSS.processBypass st.bypass input).1) := by
  constructor
  · intro hb
    unfold HPSS.processBlock
    rw [if_pos hb]
    exact ⟨rfl, rfl, rfl⟩
  · intro hb hu
    unfold HPSS.unityGainConditions at hu
    unfold HPSS.processBlock
    rw [if_neg (by rw [hb]; simp), if_pos hu]
    exact ⟨rfl, rfl, rfl⟩

/-- Witness for C10 at the settled-unity instance on a one-sample block. -/
theorem C10_monitor_fast_paths_witness :
    (HPSS.processBlock HPSS.unitySettled [2] 1 1 true true).tonalOut = some [2] := by
  have hb : HPSS.unitySettled.bypassEnabled = false := rfl
  have hu : HPSS.unityGainConditions HPSS.unitySettled 1 1 := by
    unfold HPSS.unityGainConditions HPSS.unitySettled
    norm_num [kEpsilon]
  exact ((C10_monitor_fast_paths HPSS.unitySettled [2] 1 1).2 hb hu).1

-- ---------------------------------------------------------------------------
-- Claim C6: magnitude/phase round trip
-- ---------------------------------------------------------------------------

/-- The hypot-based magnitude is the complex absolute value. -/
theorem magnitudeOf_eq_abs (c : ℂ) : MagPhaseFrame.magnitudeOf c = Complex.abs c := by
  rw [MagPhaseFrame.magnitudeOf, MagPhaseFrame.hypotRI, Complex.abs_apply,
      Complex.normSq_apply]

/-- Claim C6, corrected: for a bin of magnitude at least epsilon the
round trip toComplex(fromComplex(x)) reproduces x within 1e-6 per
component provided the phase atan2(im, re) is zero or at least the
denormal threshold 1e-30 in magnitude (the denormal flush zeroes smaller
phases, which can lose an imaginary part far larger than 1e-6 — see the
counterexample); a bin of magnitude below epsilon is forced to exactly
(0, 0) by fromComplex, and toComplex returns exactly (0, 0) for it. -/
theorem C6_round_trip (c : ℂ) :
    (kEpsilon ≤ MagPhaseFrame.magnitudeOf c →
      (Complex.arg c = 0 ∨ kDenormalThreshold ≤ |Complex.arg c|) →
      |(MagPhaseFrame.roundTripBin c).re - c.re| ≤ 1e-6 ∧
      |(MagPhaseFrame.roundTripBin c).im - c.im| ≤ 1e-6) ∧
    (MagPhaseFrame.magnitudeOf c < kEpsilon →
      MagPhaseFrame.fromComplexBin c = (0, 0) ∧ MagPhaseFrame.roundTripBin c = 0) := by
  constructor
  · intro hge harg
    by_cases hlt : kEpsilon < MagPhaseFrame.magnitudeOf c
    · have hconv : MagPhaseFrame.complexToMagPhase c
          = (MagPhaseFrame.magnitudeOf c, Complex.arg c) := by
        rw [MagPhaseFrame.complexToMagPhase, if_pos hlt]
      have hflushm : flushDenormal (MagPhaseFrame.magnitudeOf c)
          = MagPhaseFrame.magnitudeOf c := by
        rw [flushDenormal, if_neg]
        rw [not_lt, kDenormalThreshold]
        calc (1e-30 : ℝ) ≤ kEpsilon := by norm_num [kEpsilon]
          _ ≤ MagPhaseFrame.magnitudeOf c := hge
          _ ≤ |MagPhaseFrame.magnitudeOf c| := le_abs_self _
      have hflushp : flushDenormal (Complex.arg c) = Complex.arg c := by
        rcases harg with h0 | hbig
        · rw [h0, flushDenormal]
          split <;> rfl
        · rw [flushDenormal, if_neg (not_lt.mpr hbig)]
      have hfc : MagPhaseFrame.fromComplexBin c
          = (MagPhaseFrame.magnitudeOf c, Complex.arg c) := by
        rw [MagPhaseFrame.fromComplexBin, hconv]
        exact Prod.ext hflushm hflushp
      have hrt : MagPhaseFrame.roundTripBin c = c := by
        rw [MagPhaseFrame.roundTripBin, hfc]
        rw [MagPhaseFrame.magPhaseToComplex, if_neg (not_lt.mpr (le_of_lt hlt))]
        apply Complex.ext
        · show MagPhaseFrame.magnitudeOf c * Real.cos (Complex.arg c) = c.re
          rw [magnitudeOf_eq_abs]
          exact Complex.abs_mul_cos_arg c
        · show MagPhaseFrame.magnitudeOf c * Real.sin (Complex.arg c) = c.im
          rw [magnitudeOf_eq_abs]
          exact Complex.abs_mul_sin_arg c
      rw [hrt]
      norm_num
    · have heq : MagPhaseFrame.magnitudeOf c = kEpsilon := le_antisymm (not_lt.mp hlt) hge
      have hconv : MagPhaseFrame.complexToMagPhase c = (0, 0) := by
        rw [MagPhaseFrame.complexToMagPhase, if_neg hlt]
      have hrt : MagPhaseFrame.roundTripBin c = 0 := by
        rw [MagPhaseFrame.roundTripBin, MagPhaseFrame.fromComplexBin, hconv]
        show MagPhaseFrame.magPhaseToComplex (flushDenormal 0) (flushDenormal 0) = 0
        have h0 : flushDenormal 0 = 0 := by
          rw [flushDenormal]
          split <;> rfl
        rw [h0, MagPhaseFrame.magPhaseToComplex,
            if_pos (by norm_num [kEpsilon] : (0:ℝ) < kEpsilon)]
      have habs : Complex.abs c = kEpsilon := by rw [← magnitudeOf_eq_abs, heq]
      rw [hrt]
      constructor
      · rw [Complex.zero_re, zero_sub, abs_neg]
        calc |c.re| ≤ Complex.abs c := Complex.abs_re_le_abs c
          _ = kEpsilon := habs
          _ ≤ 1e-6 := by norm_num [kEpsilon]
      · rw [Complex.zero_im, zero_sub, abs_neg]
        calc |c.im| ≤ Complex.abs c := Complex.abs_im_le_abs c
          _ = kEpsilon := habs
          _ ≤ 1e-6 := by norm_num [kEpsilon]
  · intro hm
    have hconv : MagPhaseFrame.complexToMagPhase c = (0, 0) := by
      rw [MagPhaseFrame.complexToMagPhase, if_neg (not_lt.mpr (le_of_lt hm))]
    have h0 : flushDenormal 0 = 0 := by
      rw [flushDenormal]
      split <;> rfl
    have hfc : MagPhaseFrame.fromComplexBin c = (0, 0) := by
      rw [MagPhaseFrame.fromComplexBin, hconv]
      exact Prod.ext h0 h0
    refine ⟨hfc, ?_⟩
    rw [MagPhaseFrame.roundTripBin, hfc]
    rw [MagPhaseFrame.magPhaseToComplex, if_pos (by norm_num [kEpsilon] : (0:ℝ) < kEpsilon)]

/-- Witness for C6 at the bin 1 + 0i (magnitude 1, phase exactly 0). -/
theorem C6_round_trip_witness :
    |(MagPhaseFrame.roundTripBin 1).re - (1 : ℂ).re| ≤ 1e-6 := by
  have hmag : MagPhaseFrame.magnitudeOf 1 = 1 := by
    rw [magnitudeOf_eq_abs, map_one]
  have hge : kEpsilon ≤ MagPhaseFrame.magnitudeOf 1 := by
    rw [hmag]; norm_num [kEpsilon]
  exact ((C6_round_trip 1).1 hge (Or.inl Complex.arg_one)).1

/-- Counterexample to C6 as stated: the bin re = 1e37, im = 1 has
magnitude far above epsilon, yet its phase atan2(1, 1e37) lies strictly
between 0 and the denormal threshold, is flushed to exactly zero by
fromComplex, and the reconstructed imaginary part is 0 — an error of 1,
far beyond the claimed 1e-6 tolerance. -/
theorem C6_counterexample :
    kEpsilon ≤ MagPhaseFrame.magnitudeOf c6cex ∧
    (MagPhaseFrame.roundTripBin c6cex).im = 0 ∧
    1e-6 < |(MagPhaseFrame.roundTripBin c6cex).im - c6cex.im| := by
  have hre : c6cex.re = 1e37 := rfl
  have him : c6cex.im = 1 := rfl
  have hmag1 : (1 : ℝ) ≤ MagPhaseFrame.magnitudeOf c6cex := by
    rw [MagPhaseFrame.magnitudeOf, MagPhaseFrame.hypotRI, hre, him]
    exact Real.le_sqrt_of_sq_le (by norm_num)
  have hargpos : 0 < Complex.arg c6cex := by
    have hnn : 0 ≤ Complex.arg c6cex := Complex.arg_nonneg_iff.mpr (by rw [him]; norm_num)
    rcases lt_or_eq_of_le hnn with h | h
    · exact h
    · exfalso
      have := (Complex.arg_eq_zero_iff.mp h.symm).2
      rw [him] at this
      norm_num at this
  have harglt : Complex.arg c6cex < Real.pi / 2 :=
    Complex.arg_lt_pi_div_two_iff.mpr (Or.inl (by rw [hre]; norm_num))
  have hargsmall : Complex.arg c6cex < kDenormalThreshold := by
    have htan : Complex.arg c6cex < Real.tan (Complex.arg c6cex) :=
      Real.lt_tan hargpos harglt
    rw [Complex.tan_arg, hre, him] at htan
    calc Complex.arg c6cex < 1 / 1e37 := htan
      _ < kDenormalThreshold := by norm_num [kDenormalThreshold]
  have hconv : MagPhaseFrame.complexToMagPhase c6cex
      = (MagPhaseFrame.magnitudeOf c6cex, Complex.arg c6cex) := by
    rw [MagPhaseFrame.complexToMagPhase, if_pos]
    calc kEpsilon < 1 := by norm_num [kEpsilon]
      _ ≤ _ := hmag1
  have hflushm : flushDenormal (MagPhaseFrame.magnitudeOf c6cex)
      = MagPhaseFrame.magnitudeOf c6cex := by
    rw [flushDenormal, if_neg]
    rw [not_lt]
    calc kDenormalThreshold ≤ 1 := by norm_num [kDenormalThreshold]
      _ ≤ MagPhaseFrame.magnitudeOf c6cex := hmag1
      _ ≤ |MagPhaseFrame.magnitudeOf c6cex| := le_abs_self _
  have hflushp : flushDenormal (Complex.arg c6cex) = 0 := by
    rw [flushDenormal, if_pos]
    rw [abs_of_pos hargpos]
    exact hargsmall
  have hrt : (MagPhaseFrame.roundTripBin c6cex).im = 0 := by
    rw [MagPhaseFrame.roundTripBin, MagPhaseFrame.fromComplexBin, hconv]
    show (MagPhaseFrame.magPhaseToComplex
        (flushDenormal (MagPhaseFrame.magnitudeOf c6cex))
        (flushDenormal (Complex.arg c6cex))).im = 0
    rw [hflushm, hflushp, MagPhaseFrame.magPhaseToComplex, if_neg]
    · show MagPhaseFrame.magnitudeOf c6cex * Real.sin 0 = 0
      rw [Real.sin_zero, mul_zero]
    · rw [not_lt]
      calc kEpsilon ≤ 1 := by norm_num [kEpsilon]
        _ ≤ _ := hmag1
  refine ⟨le_trans (by norm_num [kEpsilon]) hmag1, hrt, ?_⟩
  rw [hrt, him]
  norm_num

-- ---------------------------------------------------------------------------
-- Claim C5: masks stay within [0,1]
-- ---------------------------------------------------------------------------

/-- Claim C5: from a prepared mask estimator with in-range parameters
(separation in [0,1], focus bias in [-1,1], spectral floor in [0,1]),
every value written to either output mask over any updateGuides,
updateStats, computeMasks call sequence lies in [0,1]; the internal
smoothing state starts at the neutral 0.5 and stays within [0,1].  The
range invariants of every pipeline stage are developed inline. -/
theorem C5_mask_range (numBins : ℕ) (sep foc flo : ℝ) (frames : List (ℕ → ℝ))
    (hsep : 0 ≤ sep ∧ sep ≤ 1) (hfoc : -1 ≤ foc ∧ foc ≤ 1)
    (hflo : 0 ≤ flo ∧ flo ≤ 1) :
    ∀ pr ∈ (MaskEstimator.runFrames (MaskEstimator.maskPrepare numBins sep foc flo) frames).1,
      ∀ i, 0 ≤ pr.1 i ∧ pr.1 i ≤ 1 ∧ 0 ≤ pr.2 i ∧ pr.2 i ≤ 1 := by
  -- clamp01 lands in [0,1]
  have clamp01_range : ∀ (v : ℝ),
      0 ≤ MaskEstimator.clamp01 v ∧ MaskEstimator.clamp01 v ≤ 1 := by
    intro v
    unfold MaskEstimator.clamp01
    split_ifs with h1 h2
    · norm_num
    · norm_num
    · exact ⟨le_of_lt (not_le.mp h1), le_of_lt (not_le.mp h2)⟩
  -- the spectral flux written by updateStats lies in [0,1]
  have updateStats_flux_range : ∀ (st : MaskEstimator.MaskEstState) (mags : ℕ → ℝ) (i : ℕ),
      0 ≤ (MaskEstimator.updateStats st mags).spectralFlux i ∧
      (MaskEstimator.updateStats st mags).spectralFlux i ≤ 1 := by
    intro st mags i
    show 0 ≤ MaskEstimator.spectralFluxAt st i ∧ MaskEstimator.spectralFluxAt st i ≤ 1
    unfold MaskEstimator.spectralFluxAt
    split_ifs
    · exact clamp01_range _
    · norm_num
  -- the spectral flatness written by updateStats lies in [0,1]
  have updateStats_flat_range : ∀ (st : MaskEstimator.MaskEstState) (mags : ℕ → ℝ) (i : ℕ),
      0 ≤ (MaskEstimator.updateStats st mags).spectralFlatness i ∧
      (MaskEstimator.updateStats st mags).spectralFlatness i ≤ 1 := by
    intro st mags i
    show 0 ≤ MaskEstimator.spectralFlatnessAt st i ∧ MaskEstimator.spectralFlatnessAt st i ≤ 1
    unfold MaskEstimator.spectralFlatnessAt
    split_ifs
    · norm_num
    · exact clamp01_range _
    · norm_num
  -- updateGuides and updateStats preserve the memory and parameters
  have updateSteps_preserved : ∀ (st : MaskEstimator.MaskEstState) (mags : ℕ → ℝ),
      (MaskEstimator.updateStats (MaskEstimator.updateGuides st mags) mags).previousSmoothedMask
          = st.previousSmoothedMask ∧
      (MaskEstimator.updateStats (MaskEstimator.updateGuides st mags) mags).separationAmount
          = st.separationAmount ∧
      (MaskEstimator.updateStats (MaskEstimator.updateGuides st mags) mags).focusBias
          = st.focusBias ∧
      (MaskEstimator.updateStats (MaskEstimator.updateGuides st mags) mags).spectralFloorThreshold
          = st.spectralFloorThreshold ∧
      (MaskEstimator.updateStats (MaskEstimator.updateGuides st mags) mags).numBins
          = st.numBins :=
    fun st mags => ⟨rfl, rfl, rfl, rfl, rfl⟩
  -- the focus boost is at least 1 for a nonnegative bias magnitude
  have focusBoost_ge_one : ∀ (b : ℝ), 0 ≤ b → 1 ≤ MaskEstimator.focusBoost b := by
    intro b hb
    unfold MaskEstimator.focusBoost
    nlinarith
  -- the mask exponent is nonnegative for a nonnegative separation
  have maskExponentOf_nonneg : ∀ (t : ℝ), 0 ≤ t → 0 ≤ MaskEstimator.maskExponentOf t := by
    intro t ht
    unfold MaskEstimator.maskExponentOf
    nlinarith
  -- the boosted tonal power is nonnegative
  have tonalPowerBoosted_nonneg : ∀ (st : MaskEstimator.MaskEstState) (i : ℕ),
      (0 ≤ st.spectralFlux i ∧ st.spectralFlux i ≤ 1) →
      (0 ≤ st.spectralFlatness i ∧ st.spectralFlatness i ≤ 1) →
      0 ≤ MaskEstimator.tonalPowerBoosted st i := by
    intro st i hflux hflat
    have hp : 0 ≤ MaskEstimator.tonalPowerAt st i := by
      unfold MaskEstimator.tonalPowerAt
      have h1 : 0 ≤ 1 - st.spectralFlux i * 0.7 := by linarith [hflux.2]
      have h2 : 0 ≤ 1 - st.spectralFlatness i * 0.5 := by linarith [hflat.2]
      exact mul_nonneg (mul_self_nonneg _) (mul_nonneg h1 h2)
    unfold MaskEstimator.tonalPowerBoosted
    split_ifs with h
    · exact mul_nonneg hp (le_trans zero_le_one (focusBoost_ge_one _ (by linarith)))
    · exact hp
  -- the boosted noise power is nonnegative
  have noisePowerBoosted_nonneg : ∀ (st : MaskEstimator.MaskEstState) (i : ℕ),
      (0 ≤ st.spectralFlux i ∧ st.spectralFlux i ≤ 1) →
      (0 ≤ st.spectralFlatness i ∧ st.spectralFlatness i ≤ 1) →
      0 ≤ MaskEstimator.noisePowerBoosted st i := by
    intro st i hflux hflat
    have hp : 0 ≤ MaskEstimator.noisePowerAt st i := by
      unfold MaskEstimator.noisePowerAt
      have h1 : 0 ≤ 1 + st.spectralFlux i * 0.7 * 0.5 := by linarith [hflux.1]
      have h2 : 0 ≤ 1 + st.spectralFlatness i * 0.5 * 0.5 := by linarith [hflat.1]
      exact mul_nonneg (mul_self_nonneg _) (mul_nonneg h1 h2)
    unfold MaskEstimator.noisePowerBoosted
    split_ifs with h
    · exact mul_nonneg hp (le_trans zero_le_one (focusBoost_ge_one _ (le_of_lt h)))
    · exact hp
  -- the raw Wiener-style mask of any bin lies in [0,1]
  have combinedMaskAt_range : ∀ (st : MaskEstimator.MaskEstState) (i : ℕ),
      (0 ≤ st.spectralFlux i ∧ st.spectralFlux i ≤ 1) →
      (0 ≤ st.spectralFlatness i ∧ st.spectralFlatness i ≤ 1) →
      0 ≤ st.separationAmount →
      0 ≤ MaskEstimator.combinedMaskAt st i ∧ MaskEstimator.combinedMaskAt st i ≤ 1 := by
    intro st i hflux hflat hsepn
    have htp := tonalPowerBoosted_nonneg st i hflux hflat
    have hnp := noisePowerBoosted_nonneg st i hflux hflat
    have heps : (0:ℝ) < kEpsilon := by norm_num [kEpsilon]
    have hden : 0 < MaskEstimator.tonalPowerBoosted st i
        + MaskEstimator.noisePowerBoosted st i + kEpsilon := by linarith
    have hratio0 : 0 ≤ MaskEstimator.tonalPowerBoosted st i /
        (MaskEstimator.tonalPowerBoosted st i + MaskEstimator.noisePowerBoosted st i + kEpsilon) :=
      div_nonneg htp (le_of_lt hden)
    have hratio1 : MaskEstimator.tonalPowerBoosted st i /
        (MaskEstimator.tonalPowerBoosted st i + MaskEstimator.noisePowerBoosted st i + kEpsilon)
          ≤ 1 := by
      rw [div_le_one hden]
      linarith
    unfold MaskEstimator.combinedMaskAt
    exact ⟨Real.rpow_nonneg hratio0 _,
           Real.rpow_le_one hratio0 hratio1 (maskExponentOf_nonneg _ hsepn)⟩
  -- asymmetric smoothing of values in [0,1] stays in [0,1]
  have asymmetricSmoothAt_range : ∀ (c p : ℝ), (0 ≤ c ∧ c ≤ 1) → (0 ≤ p ∧ p ≤ 1) →
      0 ≤ MaskEstimator.asymmetricSmoothAt c p ∧ MaskEstimator.asymmetricSmoothAt c p ≤ 1 := by
    intro c p hc hp
    unfold MaskEstimator.asymmetricSmoothAt MaskEstimator.attackAlpha MaskEstimator.releaseAlpha
    split_ifs <;> constructor <;> nlinarith [hc.1, hc.2, hp.1, hp.2]
  -- the frequency blur of a [0,1]-valued mask stays in [0,1]
  have applyFrequencyBlurAt_range : ∀ (n : ℕ) (m : ℕ → ℝ) (i : ℕ),
      (∀ k, 0 ≤ m k ∧ m k ≤ 1) →
      0 ≤ MaskEstimator.applyFrequencyBlurAt n m i ∧
      MaskEstimator.applyFrequencyBlurAt n m i ≤ 1 := by
    intro n m i hm
    have hwl : 0 ≤ MaskEstimator.blurWL n i := by
      unfold MaskEstimator.blurWL; split_ifs <;> norm_num
    have hwc : 0 ≤ MaskEstimator.blurWC n i := by
      unfold MaskEstimator.blurWC; split_ifs <;> norm_num
    have hwr : 0 ≤ MaskEstimator.blurWR n i := by
      unfold MaskEstimator.blurWR; split_ifs <;> norm_num
    unfold MaskEstimator.applyFrequencyBlurAt
    split_ifs with h
    · have htw : (0:ℝ) < MaskEstimator.blurWL n i + MaskEstimator.blurWC n i
          + MaskEstimator.blurWR n i := lt_trans (by norm_num [kEpsilon]) h
      have hws0 : 0 ≤ MaskEstimator.blurWL n i * m (i - 1)
          + MaskEstimator.blurWC n i * m i + MaskEstimator.blurWR n i * m (i + 1) :=
        add_nonneg (add_nonneg (mul_nonneg hwl (hm (i - 1)).1)
          (mul_nonneg hwc (hm i).1)) (mul_nonneg hwr (hm (i + 1)).1)
      have hwsle : MaskEstimator.blurWL n i * m (i - 1)
          + MaskEstimator.blurWC n i * m i + MaskEstimator.blurWR n i * m (i + 1)
          ≤ MaskEstimator.blurWL n i + MaskEstimator.blurWC n i + MaskEstimator.blurWR n i := by
        have h1 := mul_le_of_le_one_right hwl (hm (i - 1)).2
        have h2 := mul_le_of_le_one_right hwc (hm i).2
        have h3 := mul_le_of_le_one_right hwr (hm (i + 1)).2
        linarith
      exact ⟨div_nonneg hws0 (le_of_lt htw), (div_le_one htw).mpr hwsle⟩
    · exact hm i
  -- the spectral floor maps [0,1] into [0,1] for a threshold at most 1
  have applySpectralFloorVal_range : ∀ (thr m : ℝ), thr ≤ 1 → (0 ≤ m ∧ m ≤ 1) →
      0 ≤ MaskEstimator.applySpectralFloorVal thr m ∧
      MaskEstimator.applySpectralFloorVal thr m ≤ 1 := by
    intro thr m hthr hm
    unfold MaskEstimator.applySpectralFloorVal
    split_ifs with h1 h2 h3
    · exact hm
    · have hpos : 0 < thr := not_le.mp h1
      have hfl : (0:ℝ) < thr * 0.5 := by linarith
      have hu0 : 0 ≤ m / (thr * 0.5) := div_nonneg hm.1 (le_of_lt hfl)
      have hu1 : m / (thr * 0.5) < 1 := (div_lt_one hfl).mpr h2
      constructor
      · have := mul_nonneg (mul_nonneg (mul_nonneg hu0 hu0) hu0) (le_of_lt hfl)
        linarith
      · nlinarith [mul_nonneg (mul_nonneg hu0 hu0) hu0, hu1]
    · have hpos : 0 < thr := not_le.mp h1
      have hce0 : 0 ≤ 1 - thr * 0.5 := by linarith
      have hced : (0:ℝ) < 1 - (1 - thr * 0.5) := by linarith
      have hu0 : 0 < (m - (1 - thr * 0.5)) / (1 - (1 - thr * 0.5)) :=
        div_pos (by linarith [h3]) hced
      have hu1 : (m - (1 - thr * 0.5)) / (1 - (1 - thr * 0.5)) ≤ 1 := by
        rw [div_le_one hced]
        linarith [hm.2]
      set u := (m - (1 - thr * 0.5)) / (1 - (1 - thr * 0.5)) with hudef
      have hc0 : 0 ≤ 1 - u := by linarith
      have hc1 : 1 - u ≤ 1 := by linarith [hu0]
      have hcube0 : 0 ≤ (1 - u) * (1 - u) * (1 - u) := by positivity
      have hcube1 : (1 - u) * (1 - u) * (1 - u) ≤ 1 := by nlinarith
      constructor
      · nlinarith
      · nlinarith
    · exact hm
  -- equational form of the computeMasks outputs
  have computeMasks_eqns : ∀ (st : MaskEstimator.MaskEstState),
      (MaskEstimator.computeMasks st).1 = (fun i =>
        MaskEstimator.applySpectralFloorVal st.spectralFloorThreshold
          (MaskEstimator.applyFrequencyBlurAt st.numBins
            (fun k => MaskEstimator.asymmetricSmoothAt (MaskEstimator.combinedMaskAt st k)
              (st.previousSmoothedMask k)) i)) ∧
      (MaskEstimator.computeMasks st).2.1 = (fun i => 1 - (MaskEstimator.computeMasks st).1 i) ∧
      (MaskEstimator.computeMasks st).2.2.previousSmoothedMask
        = (MaskEstimator.computeMasks st).1 ∧
      (MaskEstimator.computeMasks st).2.2.separationAmount = st.separationAmount ∧
      (MaskEstimator.computeMasks st).2.2.focusBias = st.focusBias ∧
      (MaskEstimator.computeMasks st).2.2.spectralFloorThreshold = st.spectralFloorThreshold ∧
      (MaskEstimator.computeMasks st).2.2.numBins = st.numBins :=
    fun st => ⟨rfl, rfl, rfl, rfl, rfl, rfl, rfl⟩
  -- one per-frame step keeps both masks and the smoothing state in [0,1]
  have processFrame_range : ∀ (st : MaskEstimator.MaskEstState) (mags : ℕ → ℝ),
      (∀ k, 0 ≤ st.previousSmoothedMask k ∧ st.previousSmoothedMask k ≤ 1) →
      0 ≤ st.separationAmount →
      st.spectralFloorThreshold ≤ 1 →
      (∀ i, 0 ≤ (MaskEstimator.processFrame st mags).1 i ∧
            (MaskEstimator.processFrame st mags).1 i ≤ 1 ∧
            0 ≤ (MaskEstimator.processFrame st mags).2.1 i ∧
            (MaskEstimator.processFrame st mags).2.1 i ≤ 1) ∧
      (∀ k, 0 ≤ (MaskEstimator.processFrame st mags).2.2.previousSmoothedMask k ∧
            (MaskEstimator.processFrame st mags).2.2.previousSmoothedMask k ≤ 1) ∧
      (MaskEstimator.processFrame st mags).2.2.separationAmount = st.separationAmount ∧
      (MaskEstimator.processFrame st mags).2.2.focusBias = st.focusBias ∧
      (MaskEstimator.processFrame st mags).2.2.spectralFloorThreshold
        = st.spectralFloorThreshold := by
    intro st mags hprev hsepn hflon
    set st2 := MaskEstimator.updateStats (MaskEstimator.updateGuides st mags) mags with hst2
    obtain ⟨hps, hsep2, hfoc2, hflo2, hnb2⟩ := updateSteps_preserved st mags
    have htonal : ∀ i, 0 ≤ (MaskEstimator.computeMasks st2).1 i ∧
        (MaskEstimator.computeMasks st2).1 i ≤ 1 := by
      intro i
      rw [(computeMasks_eqns st2).1]
      refine applySpectralFloorVal_range _ _ (by rw [hflo2]; exact hflon) ?_
      refine applyFrequencyBlurAt_range _ _ _ ?_
      intro k
      refine asymmetricSmoothAt_range _ _ ?_ ?_
      · exact combinedMaskAt_range st2 k (updateStats_flux_range _ mags k)
          (updateStats_flat_range _ mags k) (by rw [hsep2]; exact hsepn)
      · rw [hps]; exact hprev k
    have hproc : MaskEstimator.processFrame st mags = MaskEstimator.computeMasks st2 := rfl
    rw [hproc]
    refine ⟨?_, ?_, hsep2, hfoc2, hflo2⟩
    · intro i
      refine ⟨(htonal i).1, (htonal i).2, ?_, ?_⟩
      · rw [(computeMasks_eqns st2).2.1]
        have := (htonal i).2
        simp only
        linarith
      · rw [(computeMasks_eqns st2).2.1]
        have := (htonal i).1
        simp only
        linarith
    · intro k
      rw [(computeMasks_eqns st2).2.2.1]
      exact htonal k
  -- running any frame sequence keeps every emitted mask pair in [0,1]
  have runFrames_range : ∀ (frames2 : List (ℕ → ℝ)) (st : MaskEstimator.MaskEstState),
      (∀ k, 0 ≤ st.previousSmoothedMask k ∧ st.previousSmoothedMask k ≤ 1) →
      0 ≤ st.separationAmount → st.spectralFloorThreshold ≤ 1 →
      ∀ pr ∈ (MaskEstimator.runFrames st frames2).1, ∀ i,
        0 ≤ pr.1 i ∧ pr.1 i ≤ 1 ∧ 0 ≤ pr.2 i ∧ pr.2 i ≤ 1 := by
    intro frames2
    induction frames2 with
    | nil =>
        intro st hprev hsepn hflon pr hpr
        simp [MaskEstimator.runFrames] at hpr
    | cons f fs ih =>
        intro st hprev hsepn hflon pr hpr i
        obtain ⟨hrange, hnext, hsepn2, hfocn, hflon2⟩ := processFrame_range st f hprev hsepn hflon
        rcases (by simpa [MaskEstimator.runFrames] using hpr :
          pr = ((MaskEstimator.processFrame st f).1, (MaskEstimator.processFrame st f).2.1) ∨
          pr ∈ (MaskEstimator.runFrames (MaskEstimator.processFrame st f).2.2 fs).1) with h | h
        · rw [h]
          exact hrange i
        · exact ih (MaskEstimator.processFrame st f).2.2 hnext
            (by rw [hsepn2]; exact hsepn) (by rw [hflon2]; exact hflon) pr h i
  refine runFrames_range frames _ ?_ hsep.1 hflo.2
  intro k
  norm_num [MaskEstimator.maskPrepare]


/-- Witness for C5: the mask pair emitted for a single all-ones frame
through a one-bin estimator at default parameters is within [0,1] at
bin 0. -/
theorem C5_mask_range_witness :
    0 ≤ (MaskEstimator.processFrame (MaskEstimator.maskPrepare 1 0.75 0 0) (fun _ => 1)).1 0 ∧
    (MaskEstimator.processFrame (MaskEstimator.maskPrepare 1 0.75 0 0) (fun _ => 1)).1 0 ≤ 1 ∧
    0 ≤ (MaskEstimator.processFrame (MaskEstimator.maskPrepare 1 0.75 0 0) (fun _ => 1)).2.1 0 ∧
    (MaskEstimator.processFrame (MaskEstimator.maskPrepare 1 0.75 0 0) (fun _ => 1)).2.1 0 ≤ 1 :=
  C5_mask_range 1 0.75 0 0 [fun _ => 1]
    (by norm_num) (by norm_num) (by norm_num)
    ((MaskEstimator.processFrame (MaskEstimator.maskPrepare 1 0.75 0 0) (fun _ => 1)).1,
     (MaskEstimator.processFrame (MaskEstimator.maskPrepare 1 0.75 0 0) (fun _ => 1)).2.1)
    (by simp [MaskEstimator.runFrames]) 0

-- ---------------------------------------------------------------------------
-- Claim C1: unity-gain transparency through the bypass delay line
-- ---------------------------------------------------------------------------

/-- Distinct offsets below the ring size occupy distinct slots. -/
theorem ringSlot_distinct (size r j m : ℕ) (hj : j < size) (hm : m < size) (hne : j ≠ m) :
    (r + j) % size ≠ (r + m) % size := by
  intro h
  have h2 : j % size = m % size := Nat.ModEq.add_left_cancel' r h
  rw [Nat.mod_eq_of_lt hj, Nat.mod_eq_of_lt hm] at h2
  exact hne h2

/-- Writing a block extends the pending region of the delay line. -/
theorem bypassWriteList_inv (xs : List ℝ) :
    ∀ (s : HPSS.BypassState) (pending : List ℝ),
      HPSS.BypassInv s pending → pending.length + xs.length ≤ s.size →
      HPSS.BypassInv (HPSS.bypassWriteList s xs) (pending ++ xs) := by
  induction xs with
  | nil =>
      intro s pending hinv _
      simpa using hinv
  | cons x rest ih =>
      intro s pending hinv hfit
      obtain ⟨hsz, hr, hw, hplen, hbuf⟩ := hinv
      have hmlt : pending.length < s.size := by
        simp only [List.length_cons] at hfit
        omega
      have hwmod : s.writePos % s.size = (s.readPos + pending.length) % s.size := by
        rw [hw, Nat.mod_mod_of_dvd _ dvd_rfl]
      have hstep : HPSS.BypassInv
          { s with buf := Function.update s.buf (s.writePos % s.size) x,
                   writePos := (s.writePos + 1) % s.size } (pending ++ [x]) := by
        refine ⟨hsz, hr, ?_, ?_, ?_⟩
        · show (s.writePos + 1) % s.size
            = (s.readPos + (pending ++ [x]).length) % s.size
          rw [hw, List.length_append, List.length_singleton, Nat.mod_add_mod,
              ← Nat.add_assoc]
        · simp only [List.length_append, List.length_singleton]
          omega
        · intro j hj
          simp only [List.length_append, List.length_singleton] at hj
          show Function.update s.buf (s.writePos % s.size) x ((s.readPos + j) % s.size)
            = (pending ++ [x]).getD j 0
          rcases Nat.lt_succ_iff_lt_or_eq.mp hj with hjlt | hjeq
          · rw [Function.update_noteq, hbuf j hjlt, List.getD_append _ _ _ _ hjlt]
            rw [hwmod]
            exact ringSlot_distinct s.size s.readPos j pending.length
              (lt_trans hjlt hmlt) hmlt (Nat.ne_of_lt hjlt)
          · subst hjeq
            rw [hwmod, Function.update_same,
                List.getD_append_right _ _ _ _ (le_refl _)]
            simp
      have hsplit : pending ++ x :: rest = (pending ++ [x]) ++ rest := by simp
      rw [hsplit]
      show HPSS.BypassInv (HPSS.bypassWriteList _ rest) _
      refine ih _ _ hstep ?_
      simp only [List.length_append, List.length_singleton]
      simp only [List.length_cons] at hfit
      omega

/-- Reading n samples emits the first n pending samples and keeps the
invariant on the rest. -/
theorem bypassReadN_spec (n : ℕ) :
    ∀ (s : HPSS.BypassState) (pending : List ℝ),
      HPSS.BypassInv s pending → n ≤ pending.length →
      (HPSS.bypassReadN s n).1 = pending.take n ∧
      HPSS.BypassInv (HPSS.bypassReadN s n).2 (pending.drop n) := by
  induction n with
  | zero =>
      intro s pending hinv _
      exact ⟨rfl, hinv⟩
  | succ n ih =>
      intro s pending hinv hn
      obtain ⟨hsz, hr, hw, hplen, hbuf⟩ := hinv
      rcases pending with _ | ⟨p, ps⟩
      · simp at hn
      · have hhead : s.buf (s.readPos % s.size) = p := by
          have h0 := hbuf 0 (by simp)
          simpa [Nat.mod_eq_of_lt hr] using h0
        have hstep : HPSS.BypassInv { s with readPos := (s.readPos + 1) % s.size } ps := by
          refine ⟨hsz, ?_, ?_, ?_, ?_⟩
          · show (s.readPos + 1) % s.size < s.size
            exact Nat.mod_lt _ hsz
          · show s.writePos = ((s.readPos + 1) % s.size + ps.length) % s.size
            rw [hw, Nat.mod_add_mod]
            have harith : s.readPos + (p :: ps).length = s.readPos + 1 + ps.length := by
              simp only [List.length_cons]
              omega
            rw [harith]
          · show ps.length ≤ s.size
            simp only [List.length_cons] at hplen
            omega
          · intro j hj
            show s.buf (((s.readPos + 1) % s.size + j) % s.size) = ps.getD j 0
            rw [Nat.mod_add_mod]
            have harith : s.readPos + 1 + j = s.readPos + (j + 1) := by omega
            rw [harith]
            have h1 := hbuf (j + 1) (by simp only [List.length_cons]; omega)
            rw [h1]
            simp
        obtain ⟨ho, hi⟩ := ih _ ps hstep (by simpa using hn)
        constructor
        · show s.buf (s.readPos % s.size) :: (HPSS.bypassReadN _ n).1 = (p :: ps).take (n + 1)
          rw [hhead, List.take_succ_cons, ho]
        · show HPSS.BypassInv (HPSS.bypassReadN _ n).2 ((p :: ps).drop (n + 1))
          simpa using hi

/-- processBypass on one block: under the invariant, the output is the
delayed stream (the first blockLength samples of pending ++ block) and
the invariant carries to the remainder. -/
theorem processBypass_spec (s : HPSS.BypassState) (pending block : List ℝ)
    (hinv : HPSS.BypassInv s pending) (hfit : pending.length + block.length ≤ s.size) :
    (HPSS.processBypass s block).1 = (pending ++ block).take block.length ∧
    HPSS.BypassInv (HPSS.processBypass s block).2 ((pending ++ block).drop block.length) := by
  have hw := bypassWriteList_inv block s pending hinv hfit
  have := bypassReadN_spec block.length (HPSS.bypassWriteList s block) (pending ++ block) hw
    (by simp)
  exact this

/-- getD of a zero-filled replicate is zero at every index. -/
theorem getD_replicate_zero (L j : ℕ) : (List.replicate L (0:ℝ)).getD j 0 = 0 := by
  rcases lt_or_le j L with h | h
  · rw [List.getD_eq_getElem _ _ (by simpa using h)]
    simp
  · rw [List.getD_eq_default _ _ (by simpa using h)]

/-- Claim C1: from a freshly prepared bypass delay line (write cursor
latency samples ahead of the read cursor over a zeroed buffer of size
latency + maxBlockSize), processBlock with both gains and both smoothers
within epsilon of 1 emits, over any block sequence with block lengths at
most maxBlockSize, exactly the input delayed by the reported latency
(zeros for the first latency samples), and skips all spectral
processing: the STFT engine, mask estimator, magnitude/phase state and
gain smoothers are bit-identical to what they were. -/
theorem C1_unity_transparency (st : HPSS.HPSSState) (g1 g2 : ℝ)
    (blocks : List (List ℝ)) (B : ℕ)
    (hbyp : st.bypassEnabled = false)
    (hu : HPSS.unityGainConditions st g1 g2)
    (hsize : st.bypass.size = HPSS.hpssLatency st + B)
    (hB : 0 < B)
    (hw : st.bypass.writePos = HPSS.hpssLatency st)
    (hr : st.bypass.readPos = 0)
    (hbuf : ∀ p, st.bypass.buf p = 0)
    (hblocks : ∀ b ∈ blocks, b.length ≤ B) :
    (HPSS.runBlocks st g1 g2 blocks).1
      = ((List.replicate (HPSS.hpssLatency st) 0) ++ blocks.flatten).take
          blocks.flatten.length
    ∧ (HPSS.runBlocks st g1 g2 blocks).2.stft = st.stft
    ∧ (HPSS.runBlocks st g1 g2 blocks).2.maskEst = st.maskEst
    ∧ (HPSS.runBlocks st g1 g2 blocks).2.magMagnitudes = st.magMagnitudes
    ∧ (HPSS.runBlocks st g1 g2 blocks).2.tonalGainSmoother = st.tonalGainSmoother
    ∧ (HPSS.runBlocks st g1 g2 blocks).2.noiseGainSmoother = st.noiseGainSmoother := by
  have processBypassBlocks_spec : ∀ (blocks : List (List ℝ)) (s : HPSS.BypassState)
      (pending : List ℝ),
      HPSS.BypassInv s pending →
      (∀ b ∈ blocks, pending.length + b.length ≤ s.size) →
      (HPSS.processBypassBlocks s blocks).1
        = (pending ++ blocks.flatten).take blocks.flatten.length := by
    intro blocks
    induction blocks with
    | nil =>
          intro s pending _ _
          simp [HPSS.processBypassBlocks]
    | cons b bs ih =>
          intro s pending hinv hfit
          obtain ⟨ho, hi⟩ := processBypass_spec s pending b hinv (hfit b (by simp))
          have hsize : (HPSS.processBypass s b).2.size = s.size := by
            have hwsize : ∀ (xs : List ℝ) (t : HPSS.BypassState),
                (HPSS.bypassWriteList t xs).size = t.size := by
              intro xs
              induction xs with
              | nil => intro t; rfl
              | cons y ys ihy => intro t; exact ihy _
            have hrsize : ∀ (n : ℕ) (t : HPSS.BypassState),
                (HPSS.bypassReadN t n).2.size = t.size := by
              intro n
              induction n with
              | zero => intro t; rfl
              | succ k ihk => intro t; exact ihk _
            show (HPSS.bypassReadN (HPSS.bypassWriteList s b) b.length).2.size = s.size
            rw [hrsize, hwsize]
          have hplen : ((pending ++ b).drop b.length).length = pending.length := by
            simp
          have ho2 := ih (HPSS.processBypass s b).2 ((pending ++ b).drop b.length) hi
            (by intro c hc; rw [hplen, hsize]; exact hfit c (by simp [hc]))
          show (HPSS.processBypass s b).1 ++ (HPSS.processBypassBlocks (HPSS.processBypass s b).2 bs).1 = _
          rw [ho, ho2]
          have hassoc : pending ++ (b :: bs).flatten = (pending ++ b) ++ bs.flatten := by
            simp
          rw [hassoc]
          have hlen : b.length ≤ ((pending ++ b) : List ℝ).length := by simp
          rw [List.flatten_cons, List.length_append, List.take_add,
              List.take_append_of_le_length hlen, List.drop_append_of_le_length hlen]
  have runBlocks_unity : ∀ (blocks : List (List ℝ)) (st : HPSS.HPSSState) (g1 g2 : ℝ),
      st.bypassEnabled = false → HPSS.unityGainConditions st g1 g2 →
      HPSS.runBlocks st g1 g2 blocks
        = ((HPSS.processBypassBlocks st.bypass blocks).1,
           { st with bypass := (HPSS.processBypassBlocks st.bypass blocks).2 }) := by
    intro blocks
    induction blocks with
    | nil =>
          intro st g1 g2 _ _
          rfl
    | cons b bs ih =>
          intro st g1 g2 hb hu
          have hstep : HPSS.processBlock st b g1 g2 false false =
              { output := (HPSS.processBypass st.bypass b).1, tonalOut := none,
                noiseOut := none,
                state := { st with bypass := (HPSS.processBypass st.bypass b).2 } } := by
            unfold HPSS.unityGainConditions at hu
            unfold HPSS.processBlock
            rw [if_neg (by rw [hb]; simp), if_pos hu]
            rfl
          have hrest := ih { st with bypass := (HPSS.processBypass st.bypass b).2 } g1 g2 hb hu
          show ((HPSS.processBlock st b g1 g2 false false).output
              ++ (HPSS.runBlocks (HPSS.processBlock st b g1 g2 false false).state g1 g2 bs).1,
            (HPSS.runBlocks (HPSS.processBlock st b g1 g2 false false).state g1 g2 bs).2) = _
          rw [hstep]
          show ((HPSS.processBypass st.bypass b).1
              ++ (HPSS.runBlocks { st with bypass := (HPSS.processBypass st.bypass b).2 } g1 g2 bs).1,
            (HPSS.runBlocks { st with bypass := (HPSS.processBypass st.bypass b).2 } g1 g2 bs).2) = _
          rw [hrest]
          rfl
  have hinv : HPSS.BypassInv st.bypass (List.replicate (HPSS.hpssLatency st) 0) := by
    refine ⟨?_, ?_, ?_, ?_, ?_⟩
    · rw [hsize]; omega
    · rw [hr, hsize]; omega
    · rw [hw, hr, hsize]
      simp only [List.length_replicate, Nat.zero_add]
      exact (Nat.mod_eq_of_lt (by omega)).symm
    · rw [hsize]
      simp only [List.length_replicate]
      omega
    · intro j _
      rw [hbuf, getD_replicate_zero]
  have hfit : ∀ b ∈ blocks,
      (List.replicate (HPSS.hpssLatency st) (0:ℝ)).length + b.length ≤ st.bypass.size := by
    intro b hbmem
    rw [hsize]
    simp only [List.length_replicate]
    exact Nat.add_le_add_left (hblocks b hbmem) _
  have houts := processBypassBlocks_spec blocks st.bypass
    (List.replicate (HPSS.hpssLatency st) 0) hinv hfit
  have hrun := runBlocks_unity blocks st g1 g2 hbyp hu
  rw [hrun]
  exact ⟨houts, rfl, rfl, rfl, rfl, rfl⟩

/-- Witness for C1: one 1-sample block through the settled-unity
instance yields the first delayed sample, a zero. -/
theorem C1_unity_transparency_witness :
    (HPSS.runBlocks HPSS.unitySettled 1 1 [[2]]).1
      = ((List.replicate (HPSS.hpssLatency HPSS.unitySettled) (0:ℝ)) ++ [2]).take 1 := by
  have hu : HPSS.unityGainConditions HPSS.unitySettled 1 1 := by
    unfold HPSS.unityGainConditions HPSS.unitySettled
    norm_num [kEpsilon]
  have h := (C1_unity_transparency HPSS.unitySettled 1 1 [[2]] 4 rfl hu rfl
    (by norm_num) rfl rfl (fun p => rfl)
    (by intro b hb; simp at hb; rw [hb]; norm_num)).1
  simpa using h

-- ---------------------------------------------------------------------------
-- Claim C9: reset versus fresh preparation
-- ---------------------------------------------------------------------------


/-- Counterexample to claim C9 as stated: one identical 1024-sample block
of DC at requested unity gains, processed by a freshly prepared instance
and by the same instance after reset, yields outputs that disagree at
sample 768 by a full 1.0 — far beyond the 1e-6 tolerance.  The reset
instance takes the unity fast path (its smoothers were snapped to the
pre-reset target 1), while the fresh instance runs the spectral pipeline
with its smoothers still at 0.  The proof develops the whole fresh-run
and reset-run computations inline. -/
theorem C9_counterexample :
    HPSS.c9ResetRun.output.getD 768 0 = 1 ∧
    HPSS.c9FreshRun.output.getD 768 0 = 0 ∧
    ¬ |HPSS.c9ResetRun.output.getD 768 0 - HPSS.c9FreshRun.output.getD 768 0| ≤ 1e-6 := by
  -- setTargetValue always leaves the stored target equal to the new value
  have setTargetValue_target : ∀ (s : SmoothedValue.State) (v : ℝ),
      (SmoothedValue.setTargetValue s v).target = v := by
    intro s v
    unfold SmoothedValue.setTargetValue
    split_ifs with h1 h2
    · exact h1.symm
    · rfl
    · rfl
  -- skip never changes the stored target
  have skip_target : ∀ (s : SmoothedValue.State) (n : ℤ),
      (SmoothedValue.skip s n).target = s.target := by
    intro s n
    unfold SmoothedValue.skip
    split_ifs <;> rfl
  -- the smoother reset snaps the current value to the stored target
  have smoother_reset_fields : ∀ (s : SmoothedValue.State) (sr ramp : ℝ),
      (SmoothedValue.reset s sr ramp).currentValue = s.target ∧
      (SmoothedValue.reset s sr ramp).target = s.target ∧
      (SmoothedValue.reset s sr ramp).countdown = 0 :=
    fun s sr ramp => ⟨rfl, rfl, rfl⟩
  -- the 20ms ramp at 48kHz is 960 steps
  have ramp_steps_960 : (⌊(0.02 : ℝ) * 48000⌋ : ℤ) = 960 := by
    have h : (0.02 : ℝ) * 48000 = ((960 : ℤ) : ℝ) := by norm_num
    rw [h, Int.floor_intCast]
  -- writeList preserves the ring size and the read cursor
  have writeList_size_read : ∀ (xs : List ℝ) (rb : STFT.RingBuffer),
      (rb.writeList xs).size = rb.size ∧ (rb.writeList xs).readPos = rb.readPos := by
    intro xs
    induction xs with
    | nil => intro rb; exact ⟨rfl, rfl⟩
    | cons x rest ih =>
        intro rb
        simp only [STFT.RingBuffer.writeList]
        exact ih _
  -- writeList advances the write cursor by the written length mod size
  have writeList_writePos : ∀ (xs : List ℝ) (rb : STFT.RingBuffer), rb.writePos < rb.size →
      (rb.writeList xs).writePos = (rb.writePos + xs.length) % rb.size := by
    intro xs
    induction xs with
    | nil =>
        intro rb hw
        show rb.writePos = (rb.writePos + 0) % rb.size
        rw [Nat.add_zero, Nat.mod_eq_of_lt hw]
    | cons x rest ih =>
        intro rb hw
        have hsz : 0 < rb.size := Nat.pos_of_ne_zero (by omega)
        simp only [STFT.RingBuffer.writeList]
        rw [ih _ (Nat.mod_lt _ hsz)]
        show ((rb.writePos + 1) % rb.size + rest.length) % rb.size
          = (rb.writePos + (rest.length + 1)) % rb.size
        rw [Nat.mod_add_mod]
        congr 1
        omega
  -- overlap-adding an all-zero block leaves the storage untouched
  have overlapAddAux_zero : ∀ (xs : List ℝ) (data : ℕ → ℝ) (size pos : ℕ),
      (∀ x ∈ xs, x = 0) → STFT.RingBuffer.overlapAddAux data size pos xs = data := by
    intro xs
    induction xs with
    | nil => intro data size pos _; rfl
    | cons x rest ih =>
        intro data size pos hz
        have hx : x = 0 := hz x (by simp)
        show STFT.RingBuffer.overlapAddAux
          (Function.update data (pos % size) (data (pos % size) + x)) size (pos + 1) rest = data
        rw [hx, add_zero, Function.update_eq_self]
        exact ih data size (pos + 1) (fun y hy => hz y (by simp [hy]))
  -- reading-and-clearing an all-zero storage yields zeros
  have readAndClearAux_zero : ∀ (n : ℕ) (data : ℕ → ℝ) (size r : ℕ), (∀ p, data p = 0) →
      (STFT.RingBuffer.readAndClearAux data size r n).1 = List.replicate n 0 ∧
      (∀ p, (STFT.RingBuffer.readAndClearAux data size r n).2 p = 0) := by
    intro n
    induction n with
    | zero => intro data size r hz; exact ⟨rfl, hz⟩
    | succ n ih =>
        intro data size r hz
        have hz2 : ∀ p, Function.update data (r % size) 0 p = 0 := by
          intro p
          rw [Function.update_apply]
          split_ifs
          · rfl
          · exact hz p
        obtain ⟨h1, h2⟩ := ih (Function.update data (r % size) 0) size (r + 1) hz2
        constructor
        · show data (r % size) :: _ = List.replicate (n + 1) 0
          rw [hz, h1, List.replicate_succ]
        · exact h2
  -- processOutput of an all-zero output ring emits zeros
  have processOutput_zero : ∀ (st : STFT.STFTState) (n : ℕ),
      (∀ p, st.outputBuffer.data p = 0) →
      (STFT.processOutput st n).1 = List.replicate n 0 := by
    intro st n hz
    unfold STFT.processOutput
    obtain ⟨h1, -⟩ := readAndClearAux_zero (min n st.samplesInOutputBuffer)
      st.outputBuffer.data st.outputBuffer.size st.outputBuffer.readPos hz
    show (STFT.RingBuffer.readAndClearAux _ _ _ _).1
        ++ List.replicate (n - min n st.samplesInOutputBuffer) 0 = _
    rw [h1, ← List.replicate_add]
    congr 1
    omega
  -- the Hermitian extension of the zero frame is zero
  have extendHermitian_zero : ∀ (N k : ℕ), STFT.extendHermitian N (fun _ => 0) k = 0 := by
    intro N k
    unfold STFT.extendHermitian
    split_ifs
    · rfl
    · simp
  -- the inverse DFT of the zero spectrum is zero
  have dftInverse_zero : ∀ (N j : ℕ),
      STFT.dftInverse N (STFT.extendHermitian N (fun _ => 0)) j = 0 := by
    intro N j
    unfold STFT.dftInverse
    have h : ∀ k ∈ Finset.range N,
        STFT.extendHermitian N (fun _ => (0:ℂ)) k
          * Complex.exp (Complex.I * 2 * Real.pi * k * j / N) = 0 := by
      intro k _
      rw [extendHermitian_zero, zero_mul]
    rw [Finset.sum_congr rfl h]
    simp
  -- softLimit fixes zero
  have softLimit_zero : HPSS.softLimit 0 = 0 := by
    unfold HPSS.softLimit
    rw [if_pos]
    rw [abs_zero]
    norm_num
  -- the denormal flush fixes zero
  have flushDenormal_zero : flushDenormal 0 = 0 := by
    unfold flushDenormal
    split_ifs <;> rfl
  -- a zero magnitude short-circuits magPhaseToComplex to exactly zero
  have magPhaseToComplex_zero : ∀ (phase : ℝ),
      MagPhaseFrame.magPhaseToComplex 0 phase = 0 := by
    intro phase
    unfold MagPhaseFrame.magPhaseToComplex
    rw [if_pos]
    norm_num [kEpsilon]
  -- pushAndProcess never changes the configuration fields
  have pushAndProcess_config : ∀ (st : STFT.STFTState) (input : List ℝ),
      (STFT.pushAndProcess st input).fftSize = st.fftSize ∧
      (STFT.pushAndProcess st input).hopSize = st.hopSize := by
    intro st input
    have hw : (STFT.stftAfterWrite st input).fftSize = st.fftSize ∧
        (STFT.stftAfterWrite st input).hopSize = st.hopSize := by
      unfold STFT.stftAfterWrite
      split <;> exact ⟨rfl, rfl⟩
    unfold STFT.pushAndProcess
    dsimp only
    split_ifs <;> exact ⟨hw.1, hw.2⟩
  -- one frame-loop iteration preserves flags, bypass, config, targets
  have hpssProcessFrame_preserves : ∀ (st : HPSS.HPSSState),
      (HPSS.hpssProcessFrame st).bypassEnabled = st.bypassEnabled ∧
      (HPSS.hpssProcessFrame st).safetyLimitingEnabled = st.safetyLimitingEnabled ∧
      (HPSS.hpssProcessFrame st).debugPassthroughEnabled = st.debugPassthroughEnabled ∧
      (HPSS.hpssProcessFrame st).bypass = st.bypass ∧
      (HPSS.hpssProcessFrame st).currentSampleRate = st.currentSampleRate ∧
      (HPSS.hpssProcessFrame st).stft.fftSize = st.stft.fftSize ∧
      (HPSS.hpssProcessFrame st).stft.hopSize = st.stft.hopSize ∧
      (HPSS.hpssProcessFrame st).tonalGainSmoother.target = st.tonalGainSmoother.target ∧
      (HPSS.hpssProcessFrame st).noiseGainSmoother.target = st.noiseGainSmoother.target := by
    intro st
    refine ⟨rfl, rfl, rfl, rfl, rfl, ?_, ?_, skip_target _ _, skip_target _ _⟩
    · show (STFT.pushAndProcess (STFT.setCurrentFrame st.stft _) []).fftSize = st.stft.fftSize
      rw [(pushAndProcess_config _ _).1]
      rfl
    · show (STFT.pushAndProcess (STFT.setCurrentFrame st.stft _) []).hopSize = st.stft.hopSize
      rw [(pushAndProcess_config _ _).2]
      rfl
  -- a null push stalls while the ring holds less than a full window
  have pushAndProcess_stall : ∀ (st : STFT.STFTState),
      st.inputBuffer.getReadableDistance < st.fftSize →
      STFT.pushAndProcess st [] = st := by
    intro st hlt
    have hw : STFT.stftAfterWrite st [] = st := by
      unfold STFT.stftAfterWrite
      rw [if_neg]
      simp
    unfold STFT.pushAndProcess
    rw [hw]
    dsimp only
    split_ifs <;> first | rfl | omega
  -- with both smoothed gains at zero the engine receives a zero frame
  have hpssProcessFrame_stft_zero_gain : ∀ (st : HPSS.HPSSState),
      st.tonalGainSmoother.currentValue = 0 →
      st.noiseGainSmoother.currentValue = 0 →
      (HPSS.hpssProcessFrame st).stft
        = STFT.pushAndProcess (STFT.setCurrentFrame st.stft (fun _ => 0)) [] := by
    intro st hT hN
    unfold HPSS.hpssProcessFrame
    dsimp only
    rw [hT, hN]
    simp only [mul_zero, add_zero, zero_mul, magPhaseToComplex_zero]
  -- basic facts about the freshly prepared low-latency instance
  have c9Fresh_facts :
      HPSS.c9Fresh.bypassEnabled = false ∧
      HPSS.c9Fresh.tonalGainSmoother.currentValue = 0 ∧
      HPSS.c9Fresh.noiseGainSmoother.currentValue = 0 ∧
      HPSS.c9Fresh.tonalGainSmoother.target = 0 ∧
      HPSS.c9Fresh.noiseGainSmoother.target = 0 ∧
      HPSS.c9Fresh.stft = STFT.stftPrepare 1024 256 ∧
      HPSS.c9Fresh.bypass = (⟨1792, fun _ => 0, 768, 0⟩ : HPSS.BypassState) ∧
      HPSS.c9Fresh.currentSampleRate = 48000 :=
    ⟨rfl, rfl, rfl, rfl, rfl, rfl, rfl, rfl⟩
  -- the fresh run does not take the unity fast path
  have c9_dispatch :
      HPSS.c9FreshRun = HPSS.processBlockFull HPSS.c9Fresh HPSS.c9Input 1 1 false false := by
    have hnu : ¬ (|(1:ℝ) - 1| < kEpsilon ∧ |(1:ℝ) - 1| < kEpsilon ∧
        |HPSS.c9Fresh.tonalGainSmoother.currentValue - 1| < kEpsilon ∧
        |HPSS.c9Fresh.noiseGainSmoother.currentValue - 1| < kEpsilon ∧
        |HPSS.c9Fresh.tonalGainSmoother.target - 1| < kEpsilon ∧
        |HPSS.c9Fresh.noiseGainSmoother.target - 1| < kEpsilon) := by
      rintro ⟨-, -, h3, -⟩
      rw [c9Fresh_facts.2.1] at h3
      norm_num [kEpsilon] at h3
    show HPSS.processBlock HPSS.c9Fresh HPSS.c9Input 1 1 false false = _
    unfold HPSS.processBlock
    rw [if_neg (by rw [c9Fresh_facts.1]; simp), if_neg hnu]
  -- cursor positions of the written input ring
  have c9W_fields : HPSS.c9W.size = 4096 ∧ HPSS.c9W.readPos = 0 ∧ HPSS.c9W.writePos = 1024 := by
    have h1 := writeList_size_read HPSS.c9Input (STFT.RingBuffer.resize 4096)
    have h2 := writeList_writePos HPSS.c9Input (STFT.RingBuffer.resize 4096)
      (by show (0:ℕ) < 4096; norm_num)
    refine ⟨h1.1, h1.2, ?_⟩
    show ((STFT.RingBuffer.resize 4096).writeList HPSS.c9Input).writePos = 1024
    rw [h2]
    show (0 + HPSS.c9Input.length) % 4096 = 1024
    simp [HPSS.c9Input]
  -- the first pushAndProcess call produces the first frame
  have c9_push :
      STFT.pushAndProcess (STFT.stftPrepare 1024 256) HPSS.c9Input = HPSS.c9Pushed := by
    have hAW : STFT.stftAfterWrite (STFT.stftPrepare 1024 256) HPSS.c9Input = HPSS.c9AW := by
      unfold STFT.stftAfterWrite
      rw [if_pos (by simp [HPSS.c9Input] : 0 < HPSS.c9Input.length)]
      show ({ STFT.stftPrepare 1024 256 with
          inputBuffer := HPSS.c9W,
          samplesInInputBuffer := 0 + HPSS.c9Input.length } : STFT.STFTState) = HPSS.c9AW
      have hlen : 0 + HPSS.c9Input.length = 1024 := by simp [HPSS.c9Input]
      rw [hlen]
      rfl
    unfold STFT.pushAndProcess
    rw [hAW]
    dsimp only
    rw [if_pos (by show (if HPSS.c9AW.isFirstFrame then (1024:ℕ) else 256) ≤ 1024; norm_num [HPSS.c9AW, STFT.stftPrepare])]
    rw [if_neg (by show ¬ (HPSS.c9AW.frameReady = true); norm_num [HPSS.c9AW, STFT.stftPrepare])]
    rw [if_neg ?hread]
    case hread =>
      show ¬ (HPSS.c9AW.inputBuffer.getReadableDistance < HPSS.c9AW.fftSize)
      have hd : HPSS.c9AW.inputBuffer.getReadableDistance = 1024 := by
        show HPSS.c9W.getReadableDistance = 1024
        unfold STFT.RingBuffer.getReadableDistance
        rw [c9W_fields.2.1, c9W_fields.2.2, if_pos (by norm_num)]
      rw [hd]
      norm_num [HPSS.c9AW, STFT.stftPrepare]
    rfl
  -- setTargetValue with a configured ramp never moves the current value
  have setTargetValue_current : ∀ (s : SmoothedValue.State) (v : ℝ),
      ¬ s.stepsToTarget ≤ 0 →
      (SmoothedValue.setTargetValue s v).currentValue = s.currentValue := by
    intro s v h2
    unfold SmoothedValue.setTargetValue
    split_ifs with ha
    · rfl
    · rfl
  -- both fresh smoothers carry the 960-step ramp
  have c9_steps :
      HPSS.c9Fresh.tonalGainSmoother.stepsToTarget = 960 ∧
      HPSS.c9Fresh.noiseGainSmoother.stepsToTarget = 960 := by
    constructor
    · show (⌊(0.02:ℝ) * 48000⌋ : ℤ) = 960
      exact ramp_steps_960
    · show (⌊(0.02:ℝ) * 48000⌋ : ℤ) = 960
      exact ramp_steps_960
  -- entering the frame loop both smoothers still sit at 0
  have c9St2_currents :
      HPSS.c9St2.tonalGainSmoother.currentValue = 0 ∧
      HPSS.c9St2.noiseGainSmoother.currentValue = 0 := by
    constructor
    · show (SmoothedValue.setTargetValue HPSS.c9Fresh.tonalGainSmoother 1).currentValue = 0
      rw [setTargetValue_current _ _ ?h2]
      · exact c9Fresh_facts.2.1
      case h2 => rw [c9_steps.1]; norm_num
    · show (SmoothedValue.setTargetValue HPSS.c9Fresh.noiseGainSmoother 1).currentValue = 0
      rw [setTargetValue_current _ _ ?h4]
      · exact c9Fresh_facts.2.2.1
      case h4 => rw [c9_steps.2]; norm_num
  -- a zero spectral frame overlap-adds only zeros into the output ring
  have setCurrentFrame_zero_data : ∀ (st : STFT.STFTState),
      (∀ p, st.outputBuffer.data p = 0) → ∀ (p : ℕ),
      (STFT.setCurrentFrame st (fun _ => 0)).outputBuffer.data p = 0 := by
    intro st hz p
    have hsynth : ∀ x ∈ (List.range st.fftSize).map
        (fun j => STFT.applySynthesisWindowSample st.fftSize st.synthesisScale
          (STFT.dftInverse st.fftSize (STFT.extendHermitian st.fftSize (fun _ => (0:ℂ))) j) j),
        x = 0 := by
      intro x hx
      obtain ⟨j, -, hj⟩ := List.mem_map.mp hx
      subst hj
      rw [dftInverse_zero]
      unfold STFT.applySynthesisWindowSample
      ring
    show STFT.RingBuffer.overlapAddAux st.outputBuffer.data st.outputBuffer.size
        st.outputBuffer.writePos
        ((List.range st.fftSize).map
          (fun j => STFT.applySynthesisWindowSample st.fftSize st.synthesisScale
            (STFT.dftInverse st.fftSize (STFT.extendHermitian st.fftSize (fun _ => (0:ℂ))) j) j))
        p = 0
    rw [overlapAddAux_zero _ _ _ _ hsynth]
    exact hz p
  -- the state after the zero-gain frame hand-back
  have c9SCz_facts :
      HPSS.c9SCz.frameReady = false ∧
      HPSS.c9SCz.fftSize = 1024 ∧
      HPSS.c9SCz.samplesInOutputBuffer = 256 ∧
      HPSS.c9SCz.inputBuffer.getReadableDistance = 768 ∧
      (∀ p, HPSS.c9SCz.outputBuffer.data p = 0) := by
    refine ⟨rfl, rfl, rfl, ?_, ?_⟩
    · show (HPSS.c9W.advance 256).getReadableDistance = 768
      have hr : (HPSS.c9W.advance 256).readPos = 256 := by
        show (HPSS.c9W.readPos + 256) % HPSS.c9W.size = 256
        rw [c9W_fields.2.1, c9W_fields.1]
      have hw : (HPSS.c9W.advance 256).writePos = HPSS.c9W.writePos := rfl
      have hs : (HPSS.c9W.advance 256).size = HPSS.c9W.size := rfl
      unfold STFT.RingBuffer.getReadableDistance
      rw [hr, hw, hs, c9W_fields.2.2, c9W_fields.1]
      norm_num
    · intro p
      exact setCurrentFrame_zero_data HPSS.c9Pushed (fun q => rfl) p
  -- the follow-up null push inside the frame-loop body stalls
  have c9SCz_stall : STFT.pushAndProcess HPSS.c9SCz [] = HPSS.c9SCz := by
    apply pushAndProcess_stall
    rw [c9SCz_facts.2.2.2.1, c9SCz_facts.2.1]
    norm_num
  -- the single frame iteration leaves the stalled zero-output state
  have c9_frame_stft : (HPSS.hpssProcessFrame HPSS.c9St2).stft = HPSS.c9SCz := by
    rw [hpssProcessFrame_stft_zero_gain HPSS.c9St2 c9St2_currents.1 c9St2_currents.2]
    show STFT.pushAndProcess HPSS.c9SCz [] = HPSS.c9SCz
    exact c9SCz_stall
  -- the frame loop fires exactly once
  have c9_frames :
      HPSS.hpssProcessFrames 769 HPSS.c9St2 = HPSS.hpssProcessFrame HPSS.c9St2 := by
    have h1 : HPSS.hpssProcessFrames 769 HPSS.c9St2
        = if HPSS.c9St2.stft.frameReady
          then HPSS.hpssProcessFrames 768
            (if HPSS.c9St2.debugPassthroughEnabled then HPSS.hpssProcessFrameDebug HPSS.c9St2
             else HPSS.hpssProcessFrame HPSS.c9St2)
          else HPSS.c9St2 := rfl
    rw [h1, if_pos (show HPSS.c9St2.stft.frameReady = true from rfl)]
    rw [if_neg (show ¬ HPSS.c9St2.debugPassthroughEnabled = true from by
      rw [show HPSS.c9St2.debugPassthroughEnabled = false from rfl]
      simp)]
    have h2 : HPSS.hpssProcessFrames 768 (HPSS.hpssProcessFrame HPSS.c9St2)
        = if (HPSS.hpssProcessFrame HPSS.c9St2).stft.frameReady
          then HPSS.hpssProcessFrames 767
            (if (HPSS.hpssProcessFrame HPSS.c9St2).debugPassthroughEnabled
             then HPSS.hpssProcessFrameDebug (HPSS.hpssProcessFrame HPSS.c9St2)
             else HPSS.hpssProcessFrame (HPSS.hpssProcessFrame HPSS.c9St2))
          else HPSS.hpssProcessFrame HPSS.c9St2 := rfl
    rw [h2, c9_frame_stft, if_neg (show ¬ HPSS.c9SCz.frameReady = true from by
      rw [c9SCz_facts.1]
      simp)]
  -- the smoother-retarget and push stage
  have c9_fullSt2 : HPSS.fullSt2 HPSS.c9Fresh HPSS.c9Input 1 1 = HPSS.c9St2 := by
    unfold HPSS.fullSt2
    rw [c9Fresh_facts.2.2.2.2.2.1, c9_push]
    rfl
  -- the frame-loop stage
  have c9_fullSt3 :
      HPSS.fullSt3 HPSS.c9Fresh HPSS.c9Input 1 1 = HPSS.hpssProcessFrame HPSS.c9St2 := by
    unfold HPSS.fullSt3
    rw [c9_fullSt2]
    rw [show HPSS.c9St2.stft.samplesInInputBuffer + 1 = 769 from rfl]
    exact c9_frames
  -- the output of the full pipeline in terms of the named stages
  have processBlockFull_output : ∀ (st : HPSS.HPSSState) (input : List ℝ) (g1 g2 : ℝ)
      (wT wN : Bool),
      (HPSS.processBlockFull st input g1 g2 wT wN).output
        = ((if (HPSS.fullSt3 st input g1 g2).safetyLimitingEnabled
              && !(HPSS.fullSt3 st input g1 g2).debugPassthroughEnabled
            then (STFT.processOutput (HPSS.fullSt3 st input g1 g2).stft input.length).1.map
              HPSS.softLimit
            else (STFT.processOutput (HPSS.fullSt3 st input g1 g2).stft input.length).1).map
            flushDenormal) :=
    fun st input g1 g2 wT wN => rfl
  -- projections of the state left by the full pipeline
  have processBlockFull_state_proj : ∀ (st : HPSS.HPSSState) (input : List ℝ) (g1 g2 : ℝ)
      (wT wN : Bool),
      (HPSS.processBlockFull st input g1 g2 wT wN).state.tonalGainSmoother
          = (HPSS.fullSt3 st input g1 g2).tonalGainSmoother ∧
      (HPSS.processBlockFull st input g1 g2 wT wN).state.noiseGainSmoother
          = (HPSS.fullSt3 st input g1 g2).noiseGainSmoother ∧
      (HPSS.processBlockFull st input g1 g2 wT wN).state.bypassEnabled
          = (HPSS.fullSt3 st input g1 g2).bypassEnabled ∧
      (HPSS.processBlockFull st input g1 g2 wT wN).state.bypass
          = (HPSS.fullSt3 st input g1 g2).bypass ∧
      (HPSS.processBlockFull st input g1 g2 wT wN).state.stft.getLatencyInSamples
          = (HPSS.fullSt3 st input g1 g2).stft.getLatencyInSamples :=
    fun st input g1 g2 wT wN => ⟨rfl, rfl, rfl, rfl, rfl⟩
  -- the fresh run emits exactly 1024 zeros
  have c9_fresh_output : HPSS.c9FreshRun.output = List.replicate 1024 (0:ℝ) := by
    rw [c9_dispatch, processBlockFull_output, c9_fullSt3]
    rw [show (HPSS.hpssProcessFrame HPSS.c9St2).safetyLimitingEnabled = true from rfl,
        show (HPSS.hpssProcessFrame HPSS.c9St2).debugPassthroughEnabled = false from rfl]
    rw [show (true && !false) = true from rfl, if_pos rfl]
    rw [c9_frame_stft, show HPSS.c9Input.length = 1024 from by simp [HPSS.c9Input],
        processOutput_zero HPSS.c9SCz 1024 c9SCz_facts.2.2.2.2,
        List.map_replicate, softLimit_zero, List.map_replicate, flushDenormal_zero]
  -- the state left by the fresh run
  have c9_fresh_state :
      HPSS.c9FreshRun.state.tonalGainSmoother.target = 1 ∧
      HPSS.c9FreshRun.state.noiseGainSmoother.target = 1 ∧
      HPSS.c9FreshRun.state.bypassEnabled = false ∧
      HPSS.c9FreshRun.state.stft.getLatencyInSamples = 768 ∧
      HPSS.c9FreshRun.state.bypass = (⟨1792, fun _ => 0, 768, 0⟩ : HPSS.BypassState) := by
    rw [c9_dispatch]
    obtain ⟨hT, hN, hB, hBy, hL⟩ :=
      processBlockFull_state_proj HPSS.c9Fresh HPSS.c9Input 1 1 false false
    refine ⟨?_, ?_, ?_, ?_, ?_⟩
    · rw [hT, c9_fullSt3, (hpssProcessFrame_preserves _).2.2.2.2.2.2.2.1]
      exact setTargetValue_target _ _
    · rw [hN, c9_fullSt3, (hpssProcessFrame_preserves _).2.2.2.2.2.2.2.2]
      exact setTargetValue_target _ _
    · rw [hB, c9_fullSt3, (hpssProcessFrame_preserves _).1]
      rfl
    · rw [hL, c9_fullSt3]
      unfold STFT.STFTState.getLatencyInSamples
      rw [(hpssProcessFrame_preserves _).2.2.2.2.2.1,
          (hpssProcessFrame_preserves _).2.2.2.2.2.2.1]
      rfl
    · rw [hBy, c9_fullSt3, (hpssProcessFrame_preserves _).2.2.2.1]
      exact c9Fresh_facts.2.2.2.2.2.2.1
  -- the reset instance snaps both smoothers to current = target = 1
  have c9_reset_facts :
      HPSS.c9ResetInst.bypassEnabled = false ∧
      HPSS.c9ResetInst.tonalGainSmoother.currentValue = 1 ∧
      HPSS.c9ResetInst.noiseGainSmoother.currentValue = 1 ∧
      HPSS.c9ResetInst.tonalGainSmoother.target = 1 ∧
      HPSS.c9ResetInst.noiseGainSmoother.target = 1 ∧
      HPSS.c9ResetInst.bypass = (⟨1792, fun _ => 0, 768, 0⟩ : HPSS.BypassState) := by
    have hsize : HPSS.c9FreshRun.state.bypass.size = 1792 := by
      rw [c9_fresh_state.2.2.2.2]
    have hlat : HPSS.hpssLatency HPSS.c9FreshRun.state = 768 := c9_fresh_state.2.2.2.1
    refine ⟨c9_fresh_state.2.2.1, ?_, ?_, ?_, ?_, ?_⟩
    · show (SmoothedValue.reset HPSS.c9FreshRun.state.tonalGainSmoother
          HPSS.c9FreshRun.state.currentSampleRate 0.02).currentValue = 1
      rw [(smoother_reset_fields _ _ _).1]
      exact c9_fresh_state.1
    · show (SmoothedValue.reset HPSS.c9FreshRun.state.noiseGainSmoother
          HPSS.c9FreshRun.state.currentSampleRate 0.02).currentValue = 1
      rw [(smoother_reset_fields _ _ _).1]
      exact c9_fresh_state.2.1
    · show (SmoothedValue.reset HPSS.c9FreshRun.state.tonalGainSmoother
          HPSS.c9FreshRun.state.currentSampleRate 0.02).target = 1
      rw [(smoother_reset_fields _ _ _).2.1]
      exact c9_fresh_state.1
    · show (SmoothedValue.reset HPSS.c9FreshRun.state.noiseGainSmoother
          HPSS.c9FreshRun.state.currentSampleRate 0.02).target = 1
      rw [(smoother_reset_fields _ _ _).2.1]
      exact c9_fresh_state.2.1
    · show (⟨HPSS.c9FreshRun.state.bypass.size, fun _ => 0,
          HPSS.hpssLatency HPSS.c9FreshRun.state, 0⟩ : HPSS.BypassState)
        = (⟨1792, fun _ => 0, 768, 0⟩ : HPSS.BypassState)
      rw [hsize, hlat]
  -- the reset run takes the unity fast path
  have c9_reset_run_output :
      HPSS.c9ResetRun.output
        = (HPSS.processBypass (⟨1792, fun _ => 0, 768, 0⟩ : HPSS.BypassState) HPSS.c9Input).1 := by
    have hu : |(1:ℝ) - 1| < kEpsilon ∧ |(1:ℝ) - 1| < kEpsilon ∧
        |HPSS.c9ResetInst.tonalGainSmoother.currentValue - 1| < kEpsilon ∧
        |HPSS.c9ResetInst.noiseGainSmoother.currentValue - 1| < kEpsilon ∧
        |HPSS.c9ResetInst.tonalGainSmoother.target - 1| < kEpsilon ∧
        |HPSS.c9ResetInst.noiseGainSmoother.target - 1| < kEpsilon := by
      refine ⟨by norm_num [kEpsilon], by norm_num [kEpsilon], ?_, ?_, ?_, ?_⟩
      · rw [c9_reset_facts.2.1]
        norm_num [kEpsilon]
      · rw [c9_reset_facts.2.2.1]
        norm_num [kEpsilon]
      · rw [c9_reset_facts.2.2.2.1]
        norm_num [kEpsilon]
      · rw [c9_reset_facts.2.2.2.2.1]
        norm_num [kEpsilon]
    show (HPSS.processBlock HPSS.c9ResetInst HPSS.c9Input 1 1 false false).output = _
    unfold HPSS.processBlock
    rw [if_neg (by rw [c9_reset_facts.1]; simp), if_pos hu]
    dsimp only
    rw [c9_reset_facts.2.2.2.2.2]
  -- the reset run's sample at index 768 is the first input sample
  have c9_reset_sample : HPSS.c9ResetRun.output.getD 768 0 = 1 := by
    rw [c9_reset_run_output]
    have hinv : HPSS.BypassInv (⟨1792, fun _ => 0, 768, 0⟩ : HPSS.BypassState)
        (List.replicate 768 0) := by
      refine ⟨by norm_num, by norm_num, ?_, by simp, ?_⟩
      · show (768 : ℕ) = (0 + (List.replicate (768:ℕ) (0:ℝ)).length) % 1792
        simp
      · intro j hj
        show (0:ℝ) = (List.replicate 768 (0:ℝ)).getD j 0
        rw [getD_replicate_zero]
    have hfit : (List.replicate 768 (0:ℝ)).length + HPSS.c9Input.length
        ≤ (⟨1792, fun _ => 0, 768, 0⟩ : HPSS.BypassState).size := by
      show _ ≤ 1792
      simp [HPSS.c9Input]
    have ho := (processBypass_spec _ _ HPSS.c9Input hinv hfit).1
    rw [ho, show HPSS.c9Input.length = 1024 from by simp [HPSS.c9Input]]
    rw [List.getD_eq_getElem?_getD]
    rw [List.getElem?_take_of_lt (by norm_num : (768:ℕ) < 1024)]
    rw [List.getElem?_append_right (by simp : (List.replicate 768 (0:ℝ)).length ≤ 768)]
    simp [HPSS.c9Input]
  -- the fresh run's sample at index 768 is 0
  have c9_fresh_sample : HPSS.c9FreshRun.output.getD 768 0 = 0 := by
    rw [c9_fresh_output, getD_replicate_zero]
  refine ⟨c9_reset_sample, c9_fresh_sample, ?_⟩
  rw [c9_reset_sample, c9_fresh_sample]
  norm_num


/-- Claim C9 (amended): reset() restores the STFT engine, the
magnitude/phase state, the mask estimator, the mask buffers and the
bypass delay line to their freshly-prepared values, but the gain
smoothers follow the JUCE SmoothedValue reset semantics: the current
value snaps to the STORED TARGET (with the countdown cleared), not to
the freshly-constructed initial value 0.  A reset smoother therefore
coincides with a freshly prepared one (at the same sample rate) exactly
when its pre-reset target and step are both 0; after any block that set
a nonzero gain target, the reset instance starts with its smoothers
already settled at that target while a fresh instance starts at 0, so
the two are not behaviorally identical in general. -/
theorem C9_reset_amended (st : HPSS.HPSSState) (hq : Bool) (sr : ℝ) (mb : ℕ)
    (hsr : st.currentSampleRate = sr) :
    (HPSS.hpssReset st).stft = STFT.stftReset st.stft ∧
    (HPSS.hpssReset st).tonalGainSmoother.currentValue = st.tonalGainSmoother.target ∧
    (HPSS.hpssReset st).tonalGainSmoother.countdown = 0 ∧
    (HPSS.hpssReset st).noiseGainSmoother.currentValue = st.noiseGainSmoother.target ∧
    ((HPSS.hpssReset st).tonalGainSmoother = (HPSS.hpssPrepare hq sr mb).tonalGainSmoother
      ↔ st.tonalGainSmoother.target = 0 ∧ st.tonalGainSmoother.step = 0) := by
  subst hsr
  refine ⟨rfl, rfl, rfl, rfl, ?_, ?_⟩
  · intro h
    exact ⟨congrArg SmoothedValue.State.target h, congrArg SmoothedValue.State.step h⟩
  · rintro ⟨h1, h2⟩
    refine SmoothedValue.State.ext ?_ ?_ ?_ ?_ ?_
    · show st.tonalGainSmoother.target = (0:ℝ)
      exact h1
    · show st.tonalGainSmoother.target = (0:ℝ)
      exact h1
    · show st.tonalGainSmoother.step = (0:ℝ)
      exact h2
    · show (0:ℤ) = 0
      rfl
    · show (⌊(0.02:ℝ) * st.currentSampleRate⌋ : ℤ) = ⌊(0.02:ℝ) * st.currentSampleRate⌋
      rfl

/-- Witness for the amended C9: on the settled-unity instance, the reset
smoother keeps the unity target as its current value, and so differs from
a freshly prepared smoother. -/
theorem C9_reset_amended_witness :
    (HPSS.hpssReset HPSS.unitySettled).tonalGainSmoother.currentValue
      = HPSS.unitySettled.tonalGainSmoother.target ∧
    ¬ (HPSS.hpssReset HPSS.unitySettled).tonalGainSmoother
        = (HPSS.hpssPrepare false 48000 4).tonalGainSmoother := by
  have h := C9_reset_amended HPSS.unitySettled false 48000 4 rfl
  refine ⟨h.2.1, ?_⟩
  intro heq
  obtain ⟨h0, -⟩ := (h.2.2.2.2).mp heq
  rw [show HPSS.unitySettled.tonalGainSmoother.target = (1:ℝ) from rfl] at h0
  norm_num at h0
